import Mathlib

/-!
# Il King delle Cartes: effect resolution, shuffling, dealing, turns and the sweep

A shallow embedding of the game logic of `IlKingDelleCartes.c`.

* C `int` values are modelled by `Int`.  Signed overflow is undefined in C, so the
  model agrees with the program wherever the program's arithmetic is defined.  Counters that
  start at 0 and only grow (`i`, `vivi` in `eliminaGiocatori`, `k` in `mescolaMazzo`) are `Nat`.
* The array `Giocatore giocatori[]` is a `List Giocatore`; the number of active
  players `vivi` is a separate argument, exactly as in the source.  An access
  outside the list has no defined meaning in C: the embedding reports it as
  `Esito.fuoriLimiti` (or `none`).
* The `while (!effettoCompletato)` loop of `applicaEffetto` is run with a bound on
  the number of iterations; running out of iterations is `Esito.incompiuto`.  The loop of
  `main` is bounded in the same way by a number of rounds.
* Printing is dropped, but the array reads made only to print a name are kept,
  since they decide whether an access is inside the array.
* `rand()` is a function from the number of the call to the value returned; the validated
  answers of a player are two booleans.
-/

namespace KingCartes

/-- Carta: seme 0..3, valore 10..19 (10..16 are Ace..7, 17 = J, 18 = Q, 19 = K). -/
structure Carta where
  seme : Int
  valore : Int
deriving DecidableEq

/-- The two cards held by a player; scoperta2 tells whether the second is revealed. -/
structure in_mano where
  carta1 : Carta
  carta2 : Carta
  scoperta2 : Bool
deriving DecidableEq

/-- Giocatore: id, life points, name and hand. -/
structure Giocatore where
  id : Int
  puntiVita : Int
  nome : String
  mano : in_mano
deriving DecidableEq

/-- Outcome of running a piece of the program. -/
inductive Esito (α : Type) where
  | ok : α → Esito α
  | fuoriLimiti : Esito α
  | incompiuto : Esito α
deriving DecidableEq

/-- Array read `giocatori[i]` with a C `int` index. -/
def leggi (giocatori : List Giocatore) (i : Int) : Option Giocatore :=
  if 0 ≤ i then giocatori[i.toNat]? else none

/-- In-place update of the record `giocatori[i]`. -/
def modifica (giocatori : List Giocatore) (i : Int) (f : Giocatore → Giocatore) :
    Option (List Giocatore) :=
  match leggi giocatori i with
  | some p => some (giocatori.set i.toNat (f p))
  | none => none

/-- The statements `puntiVita--; if (puntiVita < 0) puntiVita = 0;`. -/
def perdeVita (p : Giocatore) : Giocatore :=
  let v := p.puntiVita - 1
  { p with puntiVita := if v < 0 then 0 else v }

/-- The statement `puntiVita++`. -/
def guadagnaVita (p : Giocatore) : Giocatore :=
  { p with puntiVita := p.puntiVita + 1 }

/-- The statement `mano.scoperta2 = true`. -/
def scopre (p : Giocatore) : Giocatore :=
  { p with mano := { p.mano with scoperta2 := true } }

/-- Target of a Seven: the case analysis on `giocatori[attuale].id` computing `next`. -/
def bersaglioSette (vivi id : Int) : Int :=
  if id = vivi - 1 then 0 else id + 1

/-- Target of a Jack: the case analysis computing `prev`. -/
def bersaglioJ (vivi id : Int) : Int :=
  if id = 0 then vivi - 1 else id - 1

/-- Target of a Queen (reached only when `vivi != 2`): the case analysis computing `next`. -/
def bersaglioQ (vivi id : Int) : Int :=
  if id = vivi - 1 then 1 else if id = vivi - 2 then 0 else id + 2

/-- The variables of `applicaEffetto` that change while its loop runs. -/
structure Stato where
  c : Carta
  giocatori : List Giocatore
  attuale : Int
  depositati : Int
  effettoCompletato : Bool
deriving DecidableEq

/-- One execution of the body of the `while` loop of `applicaEffetto` (the `switch`).
`none` stands for an access outside the array. -/
def corpo (vivi : Int) (s : Stato) : Option Stato :=
  let v := s.c.valore - 10
  if v = 0 then
    match leggi s.giocatori s.attuale with
    | none => none
    | some p =>
      some { s with giocatori := s.giocatori.set s.attuale.toNat (perdeVita p),
                    depositati := s.depositati + 1,
                    effettoCompletato := true }
  else if v = 6 then
    match leggi s.giocatori s.attuale with
    | none => none
    | some p =>
      let next := bersaglioSette vivi p.id
      match leggi s.giocatori next with
      | none => none
      | some q =>
        if !q.mano.scoperta2 then
          some { s with giocatori := s.giocatori.set next.toNat (scopre q),
                        attuale := next,
                        c := q.mano.carta2 }
        else
          some { s with effettoCompletato := true }
  else if v = 7 then
    match leggi s.giocatori s.attuale with
    | none => none
    | some p =>
      let prev := bersaglioJ vivi p.id
      match leggi s.giocatori prev with
      | none => none
      | some _ =>
        let g1 := s.giocatori.set s.attuale.toNat (perdeVita p)
        match modifica g1 prev guadagnaVita with
        | none => none
        | some g2 => some { s with giocatori := g2, effettoCompletato := true }
  else if v = 8 then
    if vivi = 2 then
      some { s with effettoCompletato := true }
    else
      match leggi s.giocatori s.attuale with
      | none => none
      | some p =>
        let next := bersaglioQ vivi p.id
        match leggi s.giocatori next with
        | none => none
        | some _ =>
          let g1 := s.giocatori.set s.attuale.toNat (perdeVita p)
          match modifica g1 next guadagnaVita with
          | none => none
          | some g2 => some { s with giocatori := g2, effettoCompletato := true }
  else if v = 9 then
    match leggi s.giocatori s.attuale with
    | none => none
    | some p =>
      if s.depositati ≠ 0 then
        some { s with giocatori :=
                        s.giocatori.set s.attuale.toNat
                          { p with puntiVita := p.puntiVita + s.depositati },
                      depositati := 0,
                      effettoCompletato := true }
      else
        some { s with effettoCompletato := true }
  else
    some { s with effettoCompletato := true }

/-- The loop `while (!effettoCompletato) { switch ... }`, at most `fuel` iterations. -/
def ciclo (vivi : Int) : Nat → Stato → Esito Stato
  | 0, s => if s.effettoCompletato then Esito.ok s else Esito.incompiuto
  | fuel + 1, s =>
    if s.effettoCompletato then Esito.ok s
    else
      match corpo vivi s with
      | none => Esito.fuoriLimiti
      | some s1 => ciclo vivi fuel s1

/-- The state in which `applicaEffetto` enters its loop. -/
def statoIniziale (c : Carta) (giocatori : List Giocatore) (attuale depositati : Int) : Stato :=
  { c := c, giocatori := giocatori, attuale := attuale, depositati := depositati,
    effettoCompletato := false }

/-- The function `applicaEffetto`: the roster and the pool it leaves behind. -/
def applicaEffetto (fuel : Nat) (c : Carta) (giocatori : List Giocatore) (attuale : Int)
    (depositati : Int) (vivi : Int) : Esito (List Giocatore × Int) :=
  match ciclo vivi fuel (statoIniziale c giocatori attuale depositati) with
  | Esito.ok s => Esito.ok (s.giocatori, s.depositati)
  | Esito.fuoriLimiti => Esito.fuoriLimiti
  | Esito.incompiuto => Esito.incompiuto

/-- The Seven hops made by the loop: each entry is the state before and the state after an
iteration that revealed a card and went on. -/
def salti (vivi : Int) : Nat → Stato → List (Stato × Stato)
  | 0, _ => []
  | fuel + 1, s =>
    if s.effettoCompletato then []
    else
      match corpo vivi s with
      | none => []
      | some s1 => if s1.effettoCompletato then [] else (s, s1) :: salti vivi fuel s1

/-- The function `svolgiFase`.  The two validated answers of the player are arguments:
`visiona` answers "Vuoi visionare la carta coperta?" and `scopri` answers "Vuoi scoprire la
carta e applicarne l'effetto?"; the second question is put only after a yes to the first. -/
def svolgiFase (fuel : Nat) (attuale : Int) (giocatori : List Giocatore) (depositati : Int)
    (vivi : Int) (visiona scopri : Bool) : Esito (List Giocatore × Int) :=
  match leggi giocatori attuale with
  | none => Esito.fuoriLimiti
  | some p =>
    match applicaEffetto fuel p.mano.carta1 giocatori attuale depositati vivi with
    | Esito.ok (g1, d1) =>
      match leggi g1 attuale with
      | none => Esito.fuoriLimiti
      | some p1 =>
        if !p1.mano.scoperta2 then
          if visiona then
            if scopri then
              applicaEffetto fuel p1.mano.carta2 g1 attuale d1 vivi
            else Esito.ok (g1, d1)
          else Esito.ok (g1, d1)
        else Esito.ok (g1, d1)
    | Esito.fuoriLimiti => Esito.fuoriLimiti
    | Esito.incompiuto => Esito.incompiuto

/-- The values of the loop `for (valore = 10; valore <= 19; valore++)`. -/
def valori : List Int := [10, 11, 12, 13, 14, 15, 16, 17, 18, 19]

/-- The values of the loop `for (seme = 0; seme < 4; seme++)`. -/
def semi : List Int := [0, 1, 2, 3]

/-- Inner loop of the deck construction: `mazzo[k] = (seme, valore); k++` for each value. -/
def scriviValori (seme : Int) : List Int → List Carta → Nat → Option (List Carta × Nat)
  | [], mazzo, k => some (mazzo, k)
  | valore :: resto, mazzo, k =>
    if k < mazzo.length then
      scriviValori seme resto (mazzo.set k { seme := seme, valore := valore }) (k + 1)
    else none

/-- Outer loop of the deck construction, one pass of the inner loop per suit. -/
def scriviSemi : List Int → List Carta → Nat → Option (List Carta × Nat)
  | [], mazzo, k => some (mazzo, k)
  | seme :: resto, mazzo, k =>
    match scriviValori seme valori mazzo k with
    | none => none
    | some (m, k1) => scriviSemi resto m k1

/-- The swap `temp = mazzo[i]; mazzo[i] = mazzo[j]; mazzo[j] = temp`. -/
def scambia (mazzo : List Carta) (i j : Nat) : Option (List Carta) :=
  match mazzo[i]?, mazzo[j]? with
  | some ci, some cj => some ((mazzo.set i cj).set j ci)
  | _, _ => none

/-- The loop `for (i = size - 1; i > 0; i--) { j = rand() % (i + 1); swap }`, entered with
the given `i`; `rnd t` is the value returned by call number `t` of `rand()`. -/
def mescolaCiclo (rnd : Nat → Nat) : Nat → Nat → List Carta → Option (List Carta)
  | 0, _, mazzo => some mazzo
  | i + 1, t, mazzo =>
    match scambia mazzo (i + 1) (rnd t % (i + 1 + 1)) with
    | none => none
    | some m => mescolaCiclo rnd i (t + 1) m

/-- The function `mescolaMazzo`; `none` stands for an access outside the array. -/
def mescolaMazzo (rnd : Nat → Nat) (mazzo : List Carta) (size : Int) : Option (List Carta) :=
  match scriviSemi semi mazzo 0 with
  | none => none
  | some (m, _) => mescolaCiclo rnd (size - 1).toNat 0 m

/-- The canonical deck of the spec: one card for each pair (suit, rank), in (suit, rank)
order. -/
def mazzoCanonico : List Carta :=
  semi.flatMap (fun seme => valori.map (fun valore => { seme := seme, valore := valore }))

/-- Ids equal positions among the first `n` entries of the array. -/
def idPosizioni (giocatori : List Giocatore) (n : Nat) : Prop :=
  ∀ i, i < n → (giocatori[i]?).map Giocatore.id = some (i : Int)

instance (giocatori : List Giocatore) (n : Nat) : Decidable (idPosizioni giocatori n) := by
  unfold idPosizioni; infer_instance

/-- The spec's positional helper `next(i) = (i + 1) mod n`. -/
def specNext (n i : Int) : Int := (i + 1) % n

/-- The spec's positional helper `prev(i) = (i - 1 + n) mod n`. -/
def specPrev (n i : Int) : Int := (i - 1 + n) % n

/-- The spec's positional helper `next2(i) = (i + 2) mod n`. -/
def specNext2 (n i : Int) : Int := (i + 2) % n

/-- Positions below `n` whose second card is still hidden. -/
def nascoste (g : List Giocatore) (n : Nat) : Finset Nat :=
  (Finset.range n).filter (fun i => (g[i]?).map (fun p => p.mano.scoperta2) = some false)

/-- The loop invariant: ids equal positions and the acting index is one of them. -/
def Valido (n : Nat) (s : Stato) : Prop :=
  idPosizioni s.giocatori n ∧ ∃ a : Nat, s.attuale = (a : Int) ∧ a < n

/-- What a Seven hop from `s` to `s1` does. -/
def Salto (n : Nat) (s s1 : Stato) : Prop :=
  ∃ (t : Nat) (q : Giocatore), t < n ∧ s1.attuale = (t : Int) ∧ s.giocatori[t]? = some q ∧
    q.mano.scoperta2 = false ∧ s1.giocatori = s.giocatori.set t (scopre q) ∧
    s1.c = q.mano.carta2 ∧ s1.depositati = s.depositati

/-- Every life total in the array and the pool are non-negative. -/
def NonNegativo (g : List Giocatore) (d : Int) : Prop :=
  (∀ p ∈ g, 0 ≤ p.puntiVita) ∧ 0 ≤ d

/-- A player record for examples: id, life, the values of the two cards, revealed flag. -/
def gioc (i : Int) (pv : Int) (c1 c2 : Int) (sc : Bool) : Giocatore :=
  { id := i, puntiVita := pv, nome := "",
    mano := { carta1 := ⟨0, c1⟩, carta2 := ⟨1, c2⟩, scoperta2 := sc } }

/-- Two players with 5 life each; the second card of player 1 is a Seven, that of player 0
an Ace. -/
def esempioDue : List Giocatore := [gioc 0 5 11 10 false, gioc 1 5 12 16 false]

/-- Three players; player 0 has no life left, player 1 holds a hidden Ace. -/
def esempioTre : List Giocatore :=
  [gioc 0 0 18 12 false, gioc 1 5 12 10 false, gioc 2 5 13 14 true]

/-- Three players; player 0 is down to one life and holds an Ace and a hidden Queen. -/
def esempioUltimaVita : List Giocatore :=
  [gioc 0 1 10 18 false, gioc 1 5 12 13 false, gioc 2 5 13 14 false]

/-- Four players with 5 life each. -/
def esempioQuattro : List Giocatore :=
  [gioc 0 5 11 12 false, gioc 1 5 12 13 false, gioc 2 5 18 14 false, gioc 3 5 13 15 false]

/-- What `applicaEffetto` keeps of a player record: id, name and the two cards stay, and a
revealed second card stays revealed. -/
def Stesso (p p1 : Giocatore) : Prop :=
  p1.id = p.id ∧ p1.nome = p.nome ∧ p1.mano.carta1 = p.mano.carta1 ∧
    p1.mano.carta2 = p.mano.carta2 ∧ (p.mano.scoperta2 = true → p1.mano.scoperta2 = true)

/-- The array `g1` has the length of `g` and each record of `g1` keeps what `Stesso` lists of
the record of `g` at the same position. -/
def Cornice (g g1 : List Giocatore) : Prop :=
  g1.length = g.length ∧ ∀ (i : Nat) (p p1 : Giocatore), g[i]? = some p → g1[i]? = some p1 → Stesso p p1

/-- Sum of the life totals in the array plus the shared pool. -/
def totale (g : List Giocatore) (d : Int) : Int :=
  (g.map Giocatore.puntiVita).sum + d

/-- The indices of `giocatori` that one execution of the loop body of `applicaEffetto` reads
or writes: the acting index and, for Seven, Jack and Queen, the computed target (known once
the id of the acting player has been read). -/
def accessi (vivi : Int) (s : Stato) : List Int :=
  let v := s.c.valore - 10
  if v = 0 then [s.attuale]
  else if v = 6 then
    match leggi s.giocatori s.attuale with
    | none => [s.attuale]
    | some p => [s.attuale, bersaglioSette vivi p.id]
  else if v = 7 then
    match leggi s.giocatori s.attuale with
    | none => [s.attuale]
    | some p => [s.attuale, bersaglioJ vivi p.id]
  else if v = 8 then
    if vivi = 2 then []
    else
      match leggi s.giocatori s.attuale with
      | none => [s.attuale]
      | some p => [s.attuale, bersaglioQ vivi p.id]
  else if v = 9 then [s.attuale]
  else []

/-- The indices read or written by the whole loop, iteration after iteration. -/
def accessiCiclo (vivi : Int) : Nat → Stato → List Int
  | 0, _ => []
  | fuel + 1, s =>
    if s.effettoCompletato then []
    else
      accessi vivi s ++
        (match corpo vivi s with
         | none => []
         | some s1 => accessiCiclo vivi fuel s1)

/-- What `eliminaGiocatori` leaves behind: the array, the new `*n`, the buffer
`ultimoEliminato` and the value returned. -/
structure Eliminazione where
  giocatori : List Giocatore
  n : Int
  ultimoEliminato : String
  ritorno : Int
deriving DecidableEq

/-- First loop of `eliminaGiocatori`, entered at index `i` with `resto` iterations left:
survivors are copied down to position `vivi`, the others leave their name in
`ultimoEliminato` and their index in `ultimoIdx`. -/
def eliminaCiclo : Nat → Nat → Nat → List Giocatore → String → Int →
    Option (List Giocatore × Nat × String × Int)
  | 0, _, vivi, g, ultimo, ultimoIdx => some (g, vivi, ultimo, ultimoIdx)
  | resto + 1, i, vivi, g, ultimo, ultimoIdx =>
    match g[i]? with
    | none => none
    | some p =>
      if p.puntiVita > 0 then
        if vivi < g.length then eliminaCiclo resto (i + 1) (vivi + 1) (g.set vivi p) ultimo ultimoIdx
        else none
      else eliminaCiclo resto (i + 1) vivi g p.nome (i : Int)

/-- Second loop of `eliminaGiocatori`: `giocatori[i].id = i`. -/
def assegnaId : Nat → Nat → List Giocatore → Option (List Giocatore)
  | 0, _, g => some g
  | resto + 1, i, g =>
    match g[i]? with
    | none => none
    | some p => assegnaId resto (i + 1) (g.set i { p with id := (i : Int) })

/-- The function `eliminaGiocatori`; `none` stands for an access outside the array. -/
def eliminaGiocatori (giocatori : List Giocatore) (n : Int) (ultimoEliminato : String) :
    Option Eliminazione :=
  match eliminaCiclo n.toNat 0 0 giocatori ultimoEliminato (-1) with
  | none => none
  | some (g1, vivi, ultimo, ultimoIdx) =>
    match assegnaId vivi 0 g1 with
    | none => none
    | some g2 =>
      some { giocatori := g2, n := (vivi : Int), ultimoEliminato := ultimo,
             ritorno := if vivi = 0 ∧ ultimoIdx ≠ -1 then 1 else 0 }

/-- The players of the first `n` positions with life above 0, in roster order. -/
def sopravvissuti (g : List Giocatore) (n : Nat) : List Giocatore :=
  (g.take n).filter (fun p => decide (0 < p.puntiVita))

/-- The players of the first `n` positions with life 0 or less, in roster order. -/
def eliminati (g : List Giocatore) (n : Nat) : List Giocatore :=
  (g.take n).filter (fun p => decide (p.puntiVita ≤ 0))

/-- A roster of three in which only player 1 has life left. -/
def esempioSweep : List Giocatore :=
  [{ gioc 0 0 11 12 false with nome := "Ada" }, { gioc 1 3 13 14 true with nome := "Bea" },
   { gioc 2 0 15 16 false with nome := "Ciro" }]

/-- The statements `if (turno == vivi - 1) turno = 0; else turno++;` of both loops of a
round. -/
def prossimoTurno (vivi turno : Int) : Int :=
  if turno = vivi - 1 then 0 else turno + 1

/-- Array read `mazzo[i]` with a C `int` index. -/
def leggiCarta (mazzo : List Carta) (i : Int) : Option Carta :=
  if 0 ≤ i then mazzo[i.toNat]? else none

/-- The function `daiDueCarte` on the record it points to: the new record and the new
`*nCarte`. -/
def daiDueCarte (giocatore : Giocatore) (mazzo : List Carta) (nCarte : Int) :
    Option (Giocatore × Int) :=
  match leggiCarta mazzo (nCarte - 1), leggiCarta mazzo (nCarte - 2) with
  | some c1, some c2 =>
    some ({ giocatore with mano := { giocatore.mano with carta1 := c1, carta2 := c2 } },
      nCarte - 2)
  | _, _ => none

/-- The dealing loop of `main`, with `resto` iterations left. -/
def distribuisci (mazzo : List Carta) (vivi : Int) :
    Nat → Int → Int → List Giocatore → Option (List Giocatore × Int)
  | 0, _, nCarte, g => some (g, nCarte)
  | resto + 1, turno, nCarte, g =>
    match leggi g turno with
    | none => none
    | some p =>
      match daiDueCarte p mazzo nCarte with
      | none => none
      | some (p1, nCarte1) =>
        distribuisci mazzo vivi resto (prossimoTurno vivi turno) nCarte1 (g.set turno.toNat p1)

/-- The turn loop of `main`, with `resto` iterations left; `risposte t` are the two answers
given in iteration number `t` (counted from 0). -/
def turni (fuel : Nat) (vivi : Int) (risposte : Nat → Bool × Bool) :
    Nat → Nat → Int → List Giocatore → Int → Esito (List Giocatore × Int)
  | 0, _, _, g, d => Esito.ok (g, d)
  | resto + 1, t, turno, g, d =>
    match svolgiFase fuel turno g d vivi (risposte t).1 (risposte t).2 with
    | Esito.ok (g1, d1) => turni fuel vivi risposte resto (t + 1) (prossimoTurno vivi turno) g1 d1
    | Esito.fuoriLimiti => Esito.fuoriLimiti
    | Esito.incompiuto => Esito.incompiuto

/-- The values that `turno` takes in a loop of `resto` iterations entered with `turno`. -/
def visite (vivi : Int) : Nat → Int → List Int
  | 0, _ => []
  | resto + 1, turno => turno :: visite vivi resto (prossimoTurno vivi turno)

/-- The turn order of the spec: `svolgiFase` for each index of a list, in the order of the
list. -/
def turniInOrdine (fuel : Nat) (vivi : Int) (risposte : Nat → Bool × Bool) :
    List Int → Nat → List Giocatore → Int → Esito (List Giocatore × Int)
  | [], _, g, d => Esito.ok (g, d)
  | i :: resto, t, g, d =>
    match svolgiFase fuel i g d vivi (risposte t).1 (risposte t).2 with
    | Esito.ok (g1, d1) => turniInOrdine fuel vivi risposte resto (t + 1) g1 d1
    | Esito.fuoriLimiti => Esito.fuoriLimiti
    | Esito.incompiuto => Esito.incompiuto

/-- The dealing order of the spec: two cards for each index of a list, in the order of the
list. -/
def distribuisciInOrdine (mazzo : List Carta) :
    List Int → Int → List Giocatore → Option (List Giocatore × Int)
  | [], nCarte, g => some (g, nCarte)
  | i :: resto, nCarte, g =>
    match leggi g i with
    | none => none
    | some p =>
      match daiDueCarte p mazzo nCarte with
      | none => none
      | some (p1, nCarte1) => distribuisciInOrdine mazzo resto nCarte1 (g.set i.toNat p1)

/-- The function `scegliPrimoGiocatore` on the value `r` returned by `rand()`; the `%` of C
truncates. -/
def scegliPrimoGiocatore (r : Nat) (n : Int) : Int :=
  Int.tmod (r : Int) n

/-- The loop of `resetCarteScoperte`, entered at index `i` with `resto` iterations left. -/
def resetCiclo : Nat → Nat → List Giocatore → Option (List Giocatore)
  | 0, _, g => some g
  | resto + 1, i, g =>
    match g[i]? with
    | none => none
    | some p => resetCiclo resto (i + 1) (g.set i { p with mano := { p.mano with scoperta2 := false } })

/-- The function `resetCarteScoperte`. -/
def resetCarteScoperte (giocatori : List Giocatore) (n : Int) : Option (List Giocatore) :=
  resetCiclo n.toNat 0 giocatori

/-- The variables of `main` that live across rounds. -/
structure Partita where
  mazzo : List Carta
  giocatori : List Giocatore
  vivi : Int
  pvDepositati : Int
  fase : Int
  ultimoEliminato : String
deriving DecidableEq

/-- How an iteration of the loop of `main` ends: `vittoria(ultimoEliminato); return 0;` or
the end of the loop body. -/
inductive Seguito where
  | vittoria : String → Seguito
  | fase : Partita → Seguito
deriving DecidableEq

/-- The body of the loop of `main` up to the end of the turn loop: shuffle, first player,
reset of the flags, dealing, turns.  `rnd` gives the values of `rand()` in this round
(39 for the shuffle, then one for the first player), `risposte` the answers of the turns. -/
def giocaFase (fuel : Nat) (rnd : Nat → Nat) (risposte : Nat → Bool × Bool) (p : Partita) :
    Esito Partita :=
  match mescolaMazzo rnd p.mazzo 40 with
  | none => Esito.fuoriLimiti
  | some mazzo =>
    let primo := scegliPrimoGiocatore (rnd 39) p.vivi
    match resetCarteScoperte p.giocatori p.vivi with
    | none => Esito.fuoriLimiti
    | some g0 =>
      match leggi g0 primo with
      | none => Esito.fuoriLimiti
      | some _ =>
        match distribuisci mazzo p.vivi p.vivi.toNat primo 40 g0 with
        | none => Esito.fuoriLimiti
        | some (g1, _) =>
          match turni fuel p.vivi risposte p.vivi.toNat 0 primo g1 p.pvDepositati with
          | Esito.ok (g2, d2) =>
            Esito.ok { p with mazzo := mazzo, giocatori := g2, pvDepositati := d2 }
          | Esito.fuoriLimiti => Esito.fuoriLimiti
          | Esito.incompiuto => Esito.incompiuto

/-- The end of the body of the loop of `main`, after the turn loop: the sweep, the test of
`morti`, and `fase++`. -/
def chiudiFase (p : Partita) : Option Seguito :=
  match eliminaGiocatori p.giocatori p.vivi p.ultimoEliminato with
  | none => none
  | some r =>
    if r.ritorno ≠ 0 then some (Seguito.vittoria r.ultimoEliminato)
    else
      some (Seguito.fase { p with giocatori := r.giocatori, vivi := r.n,
                                  ultimoEliminato := r.ultimoEliminato, fase := p.fase + 1 })

/-- One execution of the body of the loop of `main`. -/
def unaFase (fuel : Nat) (rnd : Nat → Nat) (risposte : Nat → Bool × Bool) (p : Partita) :
    Esito Seguito :=
  match giocaFase fuel rnd risposte p with
  | Esito.ok p1 =>
    match chiudiFase p1 with
    | none => Esito.fuoriLimiti
    | some s => Esito.ok s
  | Esito.fuoriLimiti => Esito.fuoriLimiti
  | Esito.incompiuto => Esito.incompiuto

/-- What follows an execution of the loop body: the name of the winner if `main` returned,
otherwise whatever `cont` does with the state at the next test of the loop. -/
def seguito (cont : Partita → Esito String) : Esito Seguito → Esito String
  | Esito.ok (Seguito.vittoria nome) => Esito.ok nome
  | Esito.ok (Seguito.fase p) => cont p
  | Esito.fuoriLimiti => Esito.fuoriLimiti
  | Esito.incompiuto => Esito.incompiuto

/-- The loop `while (vivi > 1)` of `main` followed by `vittoria(giocatori[0].nome)`: the
name passed to `vittoria`.  At most `fasi` rounds are played; round number `j` takes its
random values and answers from `ingressi j`. -/
def mainCiclo (fuel : Nat) (ingressi : Nat → (Nat → Nat) × (Nat → Bool × Bool)) :
    Nat → Nat → Partita → Esito String
  | 0, _, p =>
    if p.vivi > 1 then Esito.incompiuto
    else
      match leggi p.giocatori 0 with
      | none => Esito.fuoriLimiti
      | some q => Esito.ok q.nome
  | fasi + 1, j, p =>
    if p.vivi > 1 then
      seguito (fun p1 => mainCiclo fuel ingressi fasi (j + 1) p1)
        (unaFase fuel (ingressi j).1 (ingressi j).2 p)
    else
      match leggi p.giocatori 0 with
      | none => Esito.fuoriLimiti
      | some q => Esito.ok q.nome

/-- The record of a player after `daiDueCarte` has given the cards `c1` and `c2`. -/
def conCarte (p : Giocatore) (c1 c2 : Carta) : Giocatore :=
  { p with mano := { p.mano with carta1 := c1, carta2 := c2 } }

/-- The state of `main` after the turns of a round of three in which only "Bea" survives. -/
def partitaSweep : Partita :=
  { mazzo := [], giocatori := esempioSweep, vivi := 3, pvDepositati := 2, fase := 4,
    ultimoEliminato := "" }

/-- The state of `main` after the turns of a round of two in which nobody survives. -/
def partitaTuttiMorti : Partita :=
  { mazzo := [],
    giocatori := [{ gioc 0 0 11 12 false with nome := "Ada" },
                  { gioc 1 0 15 16 false with nome := "Ciro" }],
    vivi := 2, pvDepositati := 2, fase := 4, ultimoEliminato := "" }

/-- The life totals of `g1` are those of `g` at every position other than `i` and `j`. -/
def ViteFuori (g g1 : List Giocatore) (i j : Nat) : Prop :=
  ∀ k : Nat, k ≠ i → k ≠ j →
    (g1[k]?).map Giocatore.puntiVita = (g[k]?).map Giocatore.puntiVita

/-! ## Basic facts about array access -/

theorem leggi_natCast (g : List Giocatore) (a : Nat) : leggi g (a : Int) = g[a]? := by
  simp [leggi]

theorem idPosizioni_get {g : List Giocatore} {n : Nat} (h : idPosizioni g n) {i : Nat}
    (hi : i < n) : ∃ p, g[i]? = some p ∧ p.id = (i : Int) := by
  have := h i hi
  cases hg : g[i]? with
  | none => simp [hg] at this
  | some p => exact ⟨p, rfl, by simpa [hg] using this⟩

theorem idPosizioni_le {g : List Giocatore} {n : Nat} (h : idPosizioni g n) :
    n ≤ g.length := by
  by_contra hlt
  have hlt : g.length < n := Nat.lt_of_not_le hlt
  obtain ⟨p, hp, -⟩ := idPosizioni_get h hlt
  have : g[g.length]? = none := List.getElem?_eq_none (le_refl _)
  simp [this] at hp

theorem idPosizioni_set {g : List Giocatore} {n : Nat} (h : idPosizioni g n) (t : Nat)
    (q : Giocatore) (hq : ∀ p, g[t]? = some p → q.id = p.id) :
    idPosizioni (g.set t q) n := by
  intro i hi
  obtain ⟨p, hp, hpid⟩ := idPosizioni_get h hi
  by_cases hit : t = i
  · subst hit
    have hlen : t < g.length := lt_of_lt_of_le hi (idPosizioni_le h)
    simp [List.getElem?_set, hlen, hq p hp, hpid]
  · simp [List.getElem?_set, hit, hp, hpid]

/-! ## The case analyses on ids against the modular formulas -/

theorem bersaglioSette_eq {n a : Int} (h0 : 0 ≤ a) (ha : a < n) :
    bersaglioSette n a = (a + 1) % n := by
  unfold bersaglioSette
  split
  · next h => rw [h]; simp
  · next h => rw [Int.emod_eq_of_lt (by omega) (by omega)]

theorem bersaglioJ_eq {n a : Int} (hn : 2 ≤ n) (h0 : 0 ≤ a) (ha : a < n) :
    bersaglioJ n a = (a - 1 + n) % n := by
  unfold bersaglioJ
  split
  · next h => rw [h, Int.emod_eq_of_lt (by omega) (by omega)]; omega
  · next h => rw [Int.add_emod_self, Int.emod_eq_of_lt (by omega) (by omega)]

theorem bersaglioQ_eq {n a : Int} (hn : 3 ≤ n) (h0 : 0 ≤ a) (ha : a < n) :
    bersaglioQ n a = (a + 2) % n := by
  unfold bersaglioQ
  split
  · next h =>
    have : a + 2 = 1 + n := by omega
    rw [this, Int.add_emod_self, Int.emod_eq_of_lt (by omega) (by omega)]
  · split
    · next h1 h2 =>
      have : a + 2 = n := by omega
      rw [this]; simp
    · next h1 h2 => rw [Int.emod_eq_of_lt (by omega) (by omega)]

theorem bersaglioSette_nat {n a : Nat} (ha : a < n) :
    bersaglioSette (n : Int) (a : Int) = (((a + 1) % n : Nat) : Int) := by
  rw [bersaglioSette_eq (by omega) (by omega)]; norm_cast

theorem bersaglioJ_nat {n a : Nat} (hn : 2 ≤ n) (ha : a < n) :
    bersaglioJ (n : Int) (a : Int) = (((a + n - 1) % n : Nat) : Int) := by
  rw [bersaglioJ_eq (by omega) (by omega) (by omega)]
  have : (a : Int) - 1 + n = ((a + n - 1 : Nat) : Int) := by omega
  rw [this]; norm_cast

theorem bersaglioQ_nat {n a : Nat} (hn : 3 ≤ n) (ha : a < n) :
    bersaglioQ (n : Int) (a : Int) = (((a + 2) % n : Nat) : Int) := by
  rw [bersaglioQ_eq (by omega) (by omega) (by omega)]; norm_cast

/-! ## Single iterations of the loop -/

theorem ciclo_completato (vivi : Int) (fuel : Nat) (s : Stato) (h : s.effettoCompletato = true) :
    ciclo vivi fuel s = Esito.ok s := by
  cases fuel <;> simp [ciclo, h]

theorem ciclo_succ (vivi : Int) (fuel : Nat) (s s1 : Stato) (h : s.effettoCompletato = false)
    (hc : corpo vivi s = some s1) : ciclo vivi (fuel + 1) s = ciclo vivi fuel s1 := by
  simp [ciclo, h, hc]

theorem perdeVita_vita (p : Giocatore) : (perdeVita p).puntiVita = max (p.puntiVita - 1) 0 := by
  simp only [perdeVita]
  split
  · next h => rw [max_eq_right (le_of_lt h)]
  · next h => rw [max_eq_left (not_lt.mp h)]

theorem perdeVita_eq (p : Giocatore) :
    perdeVita p = { p with puntiVita := max (p.puntiVita - 1) 0 } := by
  have h := perdeVita_vita p
  cases p
  simp only [perdeVita] at h ⊢
  rw [h]

/-- An iteration that finishes the effect decides the result of the whole call. -/
theorem applicaEffetto_di_corpo (fuel : Nat) (c : Carta) (g : List Giocatore) (a d vivi : Int)
    (s1 : Stato) (hc : corpo vivi (statoIniziale c g a d) = some s1)
    (hs : s1.effettoCompletato = true) :
    applicaEffetto (fuel + 1) c g a d vivi = Esito.ok (s1.giocatori, s1.depositati) := by
  unfold applicaEffetto
  rw [ciclo_succ vivi fuel _ s1 rfl hc, ciclo_completato vivi fuel s1 hs]

theorem corpo_asso (c : Carta) (g : List Giocatore) (a : Nat) (d vivi : Int) (p : Giocatore)
    (hc : c.valore = 10) (hp : g[a]? = some p) :
    corpo vivi (statoIniziale c g a d)
      = some { c := c, giocatori := g.set a (perdeVita p), attuale := a, depositati := d + 1,
               effettoCompletato := true } := by
  simp [corpo, statoIniziale, hc, leggi_natCast, hp]

theorem corpo_re (c : Carta) (g : List Giocatore) (a : Nat) (d vivi : Int) (p : Giocatore)
    (hc : c.valore = 19) (hp : g[a]? = some p) :
    corpo vivi (statoIniziale c g a d)
      = some (if d ≠ 0 then
          { c := c, giocatori := g.set a { p with puntiVita := p.puntiVita + d }, attuale := a,
            depositati := 0, effettoCompletato := true }
        else
          { c := c, giocatori := g, attuale := a, depositati := d, effettoCompletato := true }) := by
  by_cases hd : d = 0 <;> simp [corpo, statoIniziale, hc, leggi_natCast, hp, hd]

theorem corpo_regina_due (c : Carta) (g : List Giocatore) (a d : Int) (hc : c.valore = 18) :
    corpo 2 (statoIniziale c g a d)
      = some { c := c, giocatori := g, attuale := a, depositati := d,
               effettoCompletato := true } := by
  simp [corpo, statoIniziale, hc]

theorem corpo_fante (c : Carta) (g : List Giocatore) (a n : Nat) (d : Int) (p q : Giocatore)
    (hc : c.valore = 17) (hn : 2 ≤ n) (ha : a < n) (hid : idPosizioni g n)
    (hp : g[a]? = some p) (hq : g[(a + n - 1) % n]? = some q) :
    corpo n (statoIniziale c g a d)
      = some { c := c,
               giocatori := (g.set a (perdeVita p)).set ((a + n - 1) % n) (guadagnaVita q),
               attuale := a, depositati := d, effettoCompletato := true } := by
  obtain ⟨p1, hp1, hpid⟩ := idPosizioni_get hid ha
  rw [hp] at hp1; cases hp1
  have hne : a ≠ (a + n - 1) % n := by
    rcases Nat.eq_zero_or_pos a with h0 | h0
    · subst h0; rw [Nat.zero_add, Nat.mod_eq_of_lt (by omega)]; omega
    · have : a + n - 1 = (a - 1) + n := by omega
      rw [this, Nat.add_mod_right, Nat.mod_eq_of_lt (by omega)]; omega
  have hb := bersaglioJ_nat hn ha
  generalize (a + n - 1) % n = t at hq hne hb ⊢
  simp [corpo, statoIniziale, hc, leggi_natCast, hp, hpid, hb, hq, modifica,
    List.getElem?_set, hne]

theorem corpo_regina (c : Carta) (g : List Giocatore) (a n : Nat) (d : Int) (p q : Giocatore)
    (hc : c.valore = 18) (hn : 3 ≤ n) (ha : a < n) (hid : idPosizioni g n)
    (hp : g[a]? = some p) (hq : g[(a + 2) % n]? = some q) :
    corpo n (statoIniziale c g a d)
      = some { c := c,
               giocatori := (g.set a (perdeVita p)).set ((a + 2) % n) (guadagnaVita q),
               attuale := a, depositati := d, effettoCompletato := true } := by
  obtain ⟨p1, hp1, hpid⟩ := idPosizioni_get hid ha
  rw [hp] at hp1; cases hp1
  have hne : a ≠ (a + 2) % n := by
    rcases Nat.lt_or_ge (a + 2) n with h | h
    · rw [Nat.mod_eq_of_lt h]; omega
    · have : a + 2 = (a + 2 - n) + n := by omega
      rw [this, Nat.add_mod_right, Nat.mod_eq_of_lt (by omega)]; omega
  have hn2 : (n : Int) ≠ 2 := by omega
  have hb := bersaglioQ_nat hn ha
  generalize (a + 2) % n = t at hq hne hb ⊢
  simp [corpo, statoIniziale, hc, leggi_natCast, hp, hpid, hb, hq, modifica,
    List.getElem?_set, hne, hn2]

theorem corpo_sette (c : Carta) (g : List Giocatore) (a n : Nat) (d : Int) (q : Giocatore)
    (hc : c.valore = 16) (ha : a < n) (hid : idPosizioni g n)
    (hq : g[(a + 1) % n]? = some q) :
    corpo n (statoIniziale c g a d)
      = some (if q.mano.scoperta2 = false then
          { c := q.mano.carta2, giocatori := g.set ((a + 1) % n) (scopre q),
            attuale := (((a + 1) % n : Nat) : Int), depositati := d,
            effettoCompletato := false }
        else
          { c := c, giocatori := g, attuale := a, depositati := d,
            effettoCompletato := true }) := by
  obtain ⟨p, hp, hpid⟩ := idPosizioni_get hid ha
  have hb := bersaglioSette_nat ha
  generalize (a + 1) % n = t at hq hb ⊢
  cases hs : q.mano.scoperta2 <;>
    simp [corpo, statoIniziale, hc, leggi_natCast, hp, hpid, hb, hq, hs]

theorem corpo_nullo (vivi : Int) (s : Stato) (h0 : s.c.valore ≠ 10) (h6 : s.c.valore ≠ 16)
    (h7 : s.c.valore ≠ 17) (h8 : s.c.valore ≠ 18) (h9 : s.c.valore ≠ 19) :
    corpo vivi s = some { s with effettoCompletato := true } := by
  have e0 : ¬ s.c.valore - 10 = 0 := by omega
  have e6 : ¬ s.c.valore - 10 = 6 := by omega
  have e7 : ¬ s.c.valore - 10 = 7 := by omega
  have e8 : ¬ s.c.valore - 10 = 8 := by omega
  have e9 : ¬ s.c.valore - 10 = 9 := by omega
  simp only [corpo, e0, e6, e7, e8, e9, if_false]

/-! ## Termination of the Seven chain -/

theorem mod_lt_di {n : Nat} (hn : 2 ≤ n) (k : Nat) : k % n < n :=
  Nat.mod_lt _ (by omega)

theorem corpo_valido {n : Nat} (hn : 2 ≤ n) (s : Stato) (hv : Valido n s)
    (hs : s.effettoCompletato = false) :
    ∃ s1, corpo n s = some s1 ∧ (s1.effettoCompletato = false → Salto n s s1) := by
  obtain ⟨hid, a, hatt, ha⟩ := hv
  obtain ⟨p, hp, -⟩ := idPosizioni_get hid ha
  have hst : s = statoIniziale s.c s.giocatori a s.depositati := by
    cases s; simp only [statoIniziale] at *; simp [hatt, hs]
  by_cases h0 : s.c.valore = 10
  · rw [hst, corpo_asso _ _ _ _ _ _ h0 hp]; exact ⟨_, rfl, by simp⟩
  by_cases h6 : s.c.valore = 16
  · obtain ⟨q, hq, -⟩ := idPosizioni_get hid (mod_lt_di hn (a + 1))
    rw [hst, corpo_sette _ _ _ _ _ q h6 ha hid hq]
    refine ⟨_, rfl, ?_⟩
    cases hsc : q.mano.scoperta2
    · intro _
      exact ⟨(a + 1) % n, q, mod_lt_di hn _, by simp, by simpa [statoIniziale] using hq, hsc,
        by simp [statoIniziale], by simp, by simp [statoIniziale]⟩
    · simp
  by_cases h7 : s.c.valore = 17
  · obtain ⟨q, hq, -⟩ := idPosizioni_get hid (mod_lt_di hn (a + n - 1))
    rw [hst, corpo_fante _ _ _ _ _ p q h7 hn ha hid hp hq]; exact ⟨_, rfl, by simp⟩
  by_cases h8 : s.c.valore = 18
  · rcases Nat.lt_or_ge n 3 with h3 | h3
    · have h2 : n = 2 := by omega
      subst h2
      have := corpo_regina_due s.c s.giocatori s.attuale s.depositati h8
      rw [hst]; rw [hatt] at this
      exact ⟨_, this, by simp⟩
    · obtain ⟨q, hq, -⟩ := idPosizioni_get hid (mod_lt_di hn (a + 2))
      rw [hst, corpo_regina _ _ _ _ _ p q h8 h3 ha hid hp hq]; exact ⟨_, rfl, by simp⟩
  by_cases h9 : s.c.valore = 19
  · rw [hst, corpo_re _ _ _ _ _ _ h9 hp]
    refine ⟨_, rfl, ?_⟩
    split <;> simp
  · rw [corpo_nullo _ _ h0 h6 h7 h8 h9]; exact ⟨_, rfl, by simp⟩

theorem salto_valido {n : Nat} {s s1 : Stato} (hv : Valido n s) (h : Salto n s s1) :
    Valido n s1 := by
  obtain ⟨t, q, ht, hatt, hq, -, hg, -, -⟩ := h
  refine ⟨?_, t, hatt, ht⟩
  rw [hg]
  apply idPosizioni_set hv.1
  intro p hp
  rw [hq] at hp; cases hp; rfl

theorem salto_nascoste {n : Nat} {s s1 : Stato} (h : Salto n s s1) :
    ∃ t : Nat, s1.attuale = (t : Int) ∧ t ∈ nascoste s.giocatori n ∧
      nascoste s1.giocatori n = (nascoste s.giocatori n).erase t ∧
      (s1.giocatori[t]?).map (fun p => p.mano.scoperta2) = some true := by
  obtain ⟨t, q, ht, hatt, hq, hsc, hg, -, -⟩ := h
  have hlen : t < s.giocatori.length := by
    rcases Nat.lt_or_ge t s.giocatori.length with h | h
    · exact h
    · rw [List.getElem?_eq_none h] at hq; cases hq
  refine ⟨t, hatt, ?_, ?_, ?_⟩
  · simp [nascoste, ht, hq, hsc]
  · ext i
    by_cases hit : t = i
    · subst hit
      simp [nascoste, hg, List.getElem?_set, hlen, scopre]
    · have hit2 : i ≠ t := fun h => hit h.symm
      simp [nascoste, hg, List.getElem?_set, hit, hit2]
  · simp [hg, List.getElem?_set, hlen, scopre]

/-- The loop finishes within one iteration more than the number of hidden second cards. -/
theorem ciclo_termina {n : Nat} (hn : 2 ≤ n) :
    ∀ (fuel : Nat) (s : Stato), Valido n s → (nascoste s.giocatori n).card < fuel →
      ∃ r, ciclo n fuel s = Esito.ok r := by
  intro fuel
  induction fuel with
  | zero => intro s _ h; omega
  | succ fuel ih =>
    intro s hv hcard
    cases hs : s.effettoCompletato with
    | true => exact ⟨s, ciclo_completato _ _ _ hs⟩
    | false =>
      obtain ⟨s1, hc, hsalto⟩ := corpo_valido hn s hv hs
      rw [ciclo_succ _ _ _ _ hs hc]
      cases hs1 : s1.effettoCompletato with
      | true => exact ⟨s1, ciclo_completato _ _ _ hs1⟩
      | false =>
        have hsl := hsalto hs1
        obtain ⟨t, -, hmem, herase, -⟩ := salto_nascoste hsl
        apply ih s1 (salto_valido hv hsl)
        rw [herase, Finset.card_erase_of_mem hmem]
        have := Finset.card_pos.mpr ⟨t, hmem⟩
        omega

theorem nascoste_card_le (g : List Giocatore) (n : Nat) : (nascoste g n).card ≤ n := by
  unfold nascoste
  exact le_trans (Finset.card_filter_le _ _) (by simp)

/-- Once the loop has finished, more iterations change nothing. -/
theorem ciclo_mono (vivi : Int) :
    ∀ (fuel : Nat) (s r : Stato), ciclo vivi fuel s = Esito.ok r →
      ∀ k, ciclo vivi (fuel + k) s = Esito.ok r := by
  intro fuel
  induction fuel with
  | zero =>
    intro s r h k
    cases hs : s.effettoCompletato with
    | true => rw [ciclo_completato _ _ _ hs] at h ⊢; exact h
    | false => simp [ciclo, hs] at h
  | succ fuel ih =>
    intro s r h k
    cases hs : s.effettoCompletato with
    | true => rw [ciclo_completato _ _ _ hs] at h ⊢; exact h
    | false =>
      cases hc : corpo vivi s with
      | none => simp [ciclo, hs, hc] at h
      | some s1 =>
        rw [ciclo_succ _ _ _ _ hs hc] at h
        have : fuel + 1 + k = (fuel + k) + 1 := by omega
        rw [this, ciclo_succ _ _ _ _ hs hc]
        exact ih s1 r h k

/-- Facts about the hops of one run: their number, their targets, and that no target occurs
twice. -/
theorem salti_fatti {n : Nat} (hn : 2 ≤ n) :
    ∀ (fuel : Nat) (s : Stato), Valido n s →
      (salti n fuel s).length ≤ (nascoste s.giocatori n).card ∧
      (∀ h ∈ salti n fuel s, ∃ t : Nat, h.2.attuale = (t : Int) ∧
          t ∈ nascoste s.giocatori n ∧ t ∈ nascoste h.1.giocatori n ∧
          (h.2.giocatori[t]?).map (fun p => p.mano.scoperta2) = some true) ∧
      ((salti n fuel s).map (fun h => h.2.attuale)).Nodup := by
  intro fuel
  induction fuel with
  | zero => intro s _; simp [salti]
  | succ fuel ih =>
    intro s hv
    cases hs : s.effettoCompletato with
    | true => simp [salti, hs]
    | false =>
      obtain ⟨s1, hc, hsalto⟩ := corpo_valido hn s hv hs
      cases hs1 : s1.effettoCompletato with
      | true => simp [salti, hs, hc, hs1]
      | false =>
        have hsl := hsalto hs1
        obtain ⟨t, hatt, hmem, herase, hriv⟩ := salto_nascoste hsl
        obtain ⟨ih1, ih2, ih3⟩ := ih s1 (salto_valido hv hsl)
        have hsalti : salti n (fuel + 1) s = (s, s1) :: salti n fuel s1 := by
          simp [salti, hs, hc, hs1]
        rw [hsalti]
        refine ⟨?_, ?_, ?_⟩
        · rw [herase, Finset.card_erase_of_mem hmem] at ih1
          have := Finset.card_pos.mpr ⟨t, hmem⟩
          simp only [List.length_cons]
          omega
        · intro h hh
          rcases List.mem_cons.mp hh with rfl | hh
          · exact ⟨t, hatt, hmem, hmem, hriv⟩
          · obtain ⟨u, hu1, hu2, hu3, hu4⟩ := ih2 h hh
            rw [herase] at hu2
            exact ⟨u, hu1, Finset.mem_of_mem_erase hu2, hu3, hu4⟩
        · rw [List.map_cons, List.nodup_cons]
          refine ⟨?_, ih3⟩
          intro hin
          obtain ⟨h, hh, heq⟩ := List.mem_map.mp hin
          obtain ⟨u, hu1, hu2, -, -⟩ := ih2 h hh
          rw [herase] at hu2
          have hne := Finset.ne_of_mem_erase hu2
          apply hne
          have : (u : Int) = (t : Int) := by rw [← hu1, ← hatt]; exact heq
          exact_mod_cast this

/-! ## Non-negative life totals -/

theorem leggi_mem {g : List Giocatore} {i : Int} {p : Giocatore} (h : leggi g i = some p) :
    p ∈ g := by
  unfold leggi at h
  split at h
  · exact List.getElem?_mem h
  · cases h

theorem set_vite {g : List Giocatore} (hg : ∀ p ∈ g, 0 ≤ p.puntiVita) (k : Nat) (q : Giocatore)
    (hq : 0 ≤ q.puntiVita) : ∀ p ∈ g.set k q, 0 ≤ p.puntiVita := by
  intro p hp
  rcases List.mem_or_eq_of_mem_set hp with h | h
  · exact hg p h
  · rw [h]; exact hq

theorem perdeVita_nonneg (p : Giocatore) : 0 ≤ (perdeVita p).puntiVita := by
  rw [perdeVita_vita]; exact le_max_right _ _

theorem modifica_some {g g2 : List Giocatore} {i : Int} {f : Giocatore → Giocatore}
    (h : modifica g i f = some g2) : ∃ p, leggi g i = some p ∧ g2 = g.set i.toNat (f p) := by
  unfold modifica at h
  split at h
  · next p hp => exact ⟨p, hp, by cases h; rfl⟩
  · cases h

theorem trasferisce_vite {g g2 : List Giocatore} (hg : ∀ p ∈ g, 0 ≤ p.puntiVita) (k : Nat)
    (p : Giocatore) (t : Int)
    (h : modifica (g.set k (perdeVita p)) t guadagnaVita = some g2) :
    ∀ x ∈ g2, 0 ≤ x.puntiVita := by
  obtain ⟨q, hq, rfl⟩ := modifica_some h
  have h1 := set_vite hg k (perdeVita p) (perdeVita_nonneg p)
  apply set_vite h1
  have := h1 q (leggi_mem hq)
  simp only [guadagnaVita]
  omega

theorem corpo_nonneg (vivi : Int) (s s1 : Stato) (hn : NonNegativo s.giocatori s.depositati)
    (hc : corpo vivi s = some s1) : NonNegativo s1.giocatori s1.depositati := by
  obtain ⟨hg, hd⟩ := hn
  unfold corpo at hc
  simp only at hc
  split at hc
  · split at hc
    · cases hc
    · cases hc
      exact ⟨set_vite hg _ _ (perdeVita_nonneg _), by simp only; omega⟩
  split at hc
  · split at hc
    · cases hc
    split at hc
    · cases hc
    · next q hq =>
      split at hc
      · cases hc
        exact ⟨set_vite hg _ _ (by simpa [scopre] using hg q (leggi_mem hq)), hd⟩
      · cases hc; exact ⟨hg, hd⟩
  split at hc
  · split at hc
    · cases hc
    split at hc
    · cases hc
    split at hc
    · cases hc
    · next g2 hm => cases hc; exact ⟨trasferisce_vite hg _ _ _ hm, hd⟩
  split at hc
  · split at hc
    · cases hc; exact ⟨hg, hd⟩
    split at hc
    · cases hc
    split at hc
    · cases hc
    split at hc
    · cases hc
    · next g2 hm => cases hc; exact ⟨trasferisce_vite hg _ _ _ hm, hd⟩
  split at hc
  · split at hc
    · cases hc
    · next p hp =>
      split at hc
      · cases hc
        refine ⟨set_vite hg _ _ ?_, le_refl _⟩
        have := hg p (leggi_mem hp)
        simp only
        omega
      · cases hc; exact ⟨hg, hd⟩
  · cases hc; exact ⟨hg, hd⟩

theorem ciclo_nonneg (vivi : Int) :
    ∀ (fuel : Nat) (s r : Stato), NonNegativo s.giocatori s.depositati →
      ciclo vivi fuel s = Esito.ok r → NonNegativo r.giocatori r.depositati := by
  intro fuel
  induction fuel with
  | zero =>
    intro s r hn h
    cases hs : s.effettoCompletato with
    | true => rw [ciclo_completato _ _ _ hs] at h; cases h; exact hn
    | false => simp [ciclo, hs] at h
  | succ fuel ih =>
    intro s r hn h
    cases hs : s.effettoCompletato with
    | true => rw [ciclo_completato _ _ _ hs] at h; cases h; exact hn
    | false =>
      cases hc : corpo vivi s with
      | none => simp [ciclo, hs, hc] at h
      | some s1 =>
        rw [ciclo_succ _ _ _ _ hs hc] at h
        exact ih s1 r (corpo_nonneg vivi s s1 hn hc) h

theorem applicaEffetto_ok {fuel : Nat} {c : Carta} {g : List Giocatore} {a d vivi : Int}
    {r : List Giocatore × Int} (h : applicaEffetto fuel c g a d vivi = Esito.ok r) :
    ∃ s, ciclo vivi fuel (statoIniziale c g a d) = Esito.ok s ∧
      r = (s.giocatori, s.depositati) := by
  unfold applicaEffetto at h
  split at h
  · next s hs => cases h; exact ⟨s, hs, rfl⟩
  · cases h
  · cases h

theorem applicaEffetto_termina {n : Nat} (hn : 2 ≤ n) (fuel : Nat) (c : Carta)
    (g : List Giocatore) (a : Nat) (d : Int) (hid : idPosizioni g n) (ha : a < n)
    (hf : n + 1 ≤ fuel) : ∃ r, applicaEffetto fuel c g a d n = Esito.ok r := by
  have hv : Valido n (statoIniziale c g a d) := ⟨hid, a, rfl, ha⟩
  have hcard := nascoste_card_le g n
  obtain ⟨r, hr⟩ := ciclo_termina hn fuel (statoIniziale c g a d) hv
    (by simp only [statoIniziale]; omega)
  exact ⟨(r.giocatori, r.depositati), by simp [applicaEffetto, hr]⟩

/-! ## The claims on effect resolution -/

/-- C1: for a roster of `n ≥ 2` players whose ids equal their positions, an acting index among
them and any card, the loop of `applicaEffetto` terminates (any bound of at least `n + 1`
iterations yields a result), it makes at most `n` Seven hops, every hop targets a position
below `n` whose second card was hidden in the state before the hop and is revealed after it,
and no position is the target of two hops. -/
theorem sette_catena_limitata (n : Nat) (g : List Giocatore) (a : Nat) (c : Carta) (d : Int)
    (fuel : Nat) (hn : 2 ≤ n) (hid : idPosizioni g n) (ha : a < n) (hf : n + 1 ≤ fuel) :
    (∃ r, applicaEffetto fuel c g a d n = Esito.ok r) ∧
    (salti n fuel (statoIniziale c g a d)).length ≤ n ∧
    (∀ h ∈ salti n fuel (statoIniziale c g a d),
      0 ≤ h.2.attuale ∧ h.2.attuale < n ∧
      (leggi h.1.giocatori h.2.attuale).map (fun p => p.mano.scoperta2) = some false ∧
      (leggi h.2.giocatori h.2.attuale).map (fun p => p.mano.scoperta2) = some true) ∧
    ((salti n fuel (statoIniziale c g a d)).map (fun h => h.2.attuale)).Nodup := by
  have hv : Valido n (statoIniziale c g a d) := ⟨hid, a, rfl, ha⟩
  obtain ⟨h1, h2, h3⟩ := salti_fatti hn fuel (statoIniziale c g a d) hv
  refine ⟨applicaEffetto_termina hn fuel c g a d hid ha hf, ?_, ?_, h3⟩
  · exact le_trans h1 (nascoste_card_le _ _)
  · intro h hh
    obtain ⟨t, ht, -, hmem, hriv⟩ := h2 h hh
    simp only [nascoste, Finset.mem_filter, Finset.mem_range] at hmem
    rw [ht, leggi_natCast, leggi_natCast]
    exact ⟨by omega, by omega, hmem.2, hriv⟩

/-- Witness of C1 on two players: the Seven of player 0 reveals the Seven of player 1, which
reveals the Ace of player 0. -/
theorem sette_catena_limitata_witness :
    (2 ≤ 2 ∧ idPosizioni esempioDue 2 ∧ 0 < 2 ∧ 2 + 1 ≤ 3) ∧
    (∃ r, applicaEffetto 3 ⟨0, 16⟩ esempioDue (0 : Nat) 0 (2 : Nat) = Esito.ok r) ∧
    (salti (2 : Nat) 3 (statoIniziale ⟨0, 16⟩ esempioDue (0 : Nat) 0)).length ≤ 2 :=
  ⟨by decide,
   (sette_catena_limitata 2 esempioDue 0 ⟨0, 16⟩ 0 3 (by decide) (by decide) (by decide)
      (by decide)).1,
   (sette_catena_limitata 2 esempioDue 0 ⟨0, 16⟩ 0 3 (by decide) (by decide) (by decide)
      (by decide)).2.1⟩

/-- The bound of C1 is attained: on `esempioDue` a Seven played by player 0 makes two hops and
ends by resolving the Ace of player 0. -/
theorem sette_catena_due_salti :
    (salti 2 3 (statoIniziale ⟨0, 16⟩ esempioDue 0 0)).length = 2 ∧
    applicaEffetto 3 ⟨0, 16⟩ esempioDue 0 0 2
      = Esito.ok ([gioc 0 4 11 10 true, gioc 1 5 12 16 true], 1) := by
  decide

/-- C2: a Seven played by `a` in a roster of `n ≥ 2` players (ids equal to positions), with
`q` the player at position `(a + 1) mod n`.  If the second card of `q` is hidden, the call
returns, and it returns what resolving that card returns when played by position
`(a + 1) mod n` on the roster in which the revealed flag of `q` has been set.  If the card is
already revealed, the call returns the roster and the pool unchanged. -/
theorem sette_risolve_successivo (n : Nat) (g : List Giocatore) (a : Nat) (c : Carta) (d : Int)
    (q : Giocatore) (fuel : Nat) (hn : 2 ≤ n) (hid : idPosizioni g n) (ha : a < n)
    (hc : c.valore = 16) (hq : g[(a + 1) % n]? = some q) (hf : n + 1 ≤ fuel) :
    (q.mano.scoperta2 = false →
      (∃ r, applicaEffetto fuel c g a d n = Esito.ok r) ∧
      applicaEffetto fuel c g a d n
        = applicaEffetto fuel q.mano.carta2 (g.set ((a + 1) % n) (scopre q))
            (((a + 1) % n : Nat) : Int) d n) ∧
    (q.mano.scoperta2 = true → applicaEffetto fuel c g a d n = Esito.ok (g, d)) := by
  obtain ⟨f, rfl⟩ : ∃ f, fuel = f + 1 := ⟨fuel - 1, by omega⟩
  have hcorpo := corpo_sette c g a n d q hc ha hid hq
  constructor
  · intro hsc
    rw [if_pos hsc] at hcorpo
    have hterm := applicaEffetto_termina hn (f + 1) c g a d hid ha hf
    refine ⟨hterm, ?_⟩
    obtain ⟨r, hr⟩ := hterm
    obtain ⟨sr, hsr, rfl⟩ := applicaEffetto_ok hr
    rw [ciclo_succ _ _ _ _ rfl hcorpo] at hsr
    have hsr1 := ciclo_mono _ _ _ _ hsr 1
    rw [hr]
    unfold applicaEffetto statoIniziale
    rw [hsr1]
  · intro hsc
    rw [if_neg (by simp [hsc])] at hcorpo
    exact applicaEffetto_di_corpo f c g a d n _ hcorpo rfl

/-- Witness of C2: scenario B of the spec, three players, player 0 plays a Seven and the
hidden Ace of player 1 is resolved with player 1 as actor. -/
theorem sette_risolve_successivo_witness :
    (2 ≤ 3 ∧ idPosizioni esempioTre 3 ∧ 0 < 3 ∧ 3 + 1 ≤ 4) ∧
    applicaEffetto 4 ⟨0, 16⟩ esempioTre (0 : Nat) 0 (3 : Nat)
      = applicaEffetto 4 ⟨1, 10⟩ (esempioTre.set 1 (scopre (gioc 1 5 12 10 false)))
          ((1 : Nat) : Int) 0 (3 : Nat) :=
  ⟨by decide,
   ((sette_risolve_successivo 3 esempioTre 0 ⟨0, 16⟩ 0 (gioc 1 5 12 10 false) 4 (by decide)
      (by decide) (by decide) rfl rfl (by decide)).1 rfl).2⟩

/-- C4: if every life total in the roster and the pool are non-negative before
`applicaEffetto`, then for any card, acting index and active count, whatever the call returns
has every life total and the pool non-negative; and the call does return for a roster of
`n ≥ 2` players whose ids equal their positions when an index among them acts. -/
theorem vite_non_negative (fuel : Nat) (c : Carta) (g : List Giocatore) (a d vivi : Int)
    (hg : ∀ p ∈ g, 0 ≤ p.puntiVita) (hd : 0 ≤ d) :
    (∀ g1 d1, applicaEffetto fuel c g a d vivi = Esito.ok (g1, d1) →
      (∀ p ∈ g1, 0 ≤ p.puntiVita) ∧ 0 ≤ d1) ∧
    (∀ n k : Nat, vivi = (n : Int) → a = (k : Int) → 2 ≤ n → idPosizioni g n → k < n →
      n + 1 ≤ fuel → ∃ g1 d1, applicaEffetto fuel c g a d vivi = Esito.ok (g1, d1)) := by
  constructor
  · intro g1 d1 h
    obtain ⟨s, hs, hr⟩ := applicaEffetto_ok h
    cases hr
    exact ciclo_nonneg vivi fuel _ s ⟨hg, hd⟩ hs
  · intro n k hvivi hak hn hid hk hf
    subst hvivi hak
    obtain ⟨r, hr⟩ := applicaEffetto_termina hn fuel c g k d hid hk hf
    exact ⟨r.1, r.2, hr⟩

/-- Witness of C4: a Jack played by player 0, who has no life left, among three players. -/
theorem vite_non_negative_witness :
    ((∀ p ∈ esempioTre, 0 ≤ p.puntiVita) ∧ (0 : Int) ≤ 0) ∧
    ∀ g1 d1, applicaEffetto 4 ⟨0, 17⟩ esempioTre 0 0 3 = Esito.ok (g1, d1) →
      (∀ p ∈ g1, 0 ≤ p.puntiVita) ∧ 0 ≤ d1 :=
  ⟨by decide, (vite_non_negative 4 ⟨0, 17⟩ esempioTre 0 0 3 (by decide) (by decide)).1⟩

/-- C5: resolving an Ace with the player `p` at position `a` acting replaces the life of
`p` by `max (life - 1) 0`, leaves every other entry of the roster as it was, and adds
exactly 1 to the pool. -/
theorem asso_effetto (fuel : Nat) (c : Carta) (g : List Giocatore) (a : Nat) (d vivi : Int)
    (p : Giocatore) (hc : c.valore = 10) (hp : g[a]? = some p) :
    applicaEffetto (fuel + 1) c g a d vivi
      = Esito.ok (g.set a { p with puntiVita := max (p.puntiVita - 1) 0 }, d + 1) := by
  rw [applicaEffetto_di_corpo fuel c g a d vivi _ (corpo_asso c g a d vivi p hc hp) rfl,
    perdeVita_eq]

/-- Witness of C5: scenario A of the spec, two players with 5 life, Ace played by player 0. -/
theorem asso_effetto_witness :
    ((⟨0, 10⟩ : Carta).valore = 10 ∧ esempioDue[0]? = some (gioc 0 5 11 10 false)) ∧
    applicaEffetto (0 + 1) ⟨0, 10⟩ esempioDue (0 : Nat) 0 2
      = Esito.ok (esempioDue.set 0 { gioc 0 5 11 10 false with puntiVita := max (5 - 1) 0 },
          0 + 1) :=
  ⟨by decide, asso_effetto 0 ⟨0, 10⟩ esempioDue 0 0 2 (gioc 0 5 11 10 false) rfl rfl⟩

/-- C6: resolving a King with the player `p` at position `a` acting: with a pool `d > 0` the
life of `p` grows by exactly `d` and the pool becomes 0; with an empty pool the roster and the
pool are unchanged. -/
theorem re_effetto (fuel : Nat) (c : Carta) (g : List Giocatore) (a : Nat) (d vivi : Int)
    (p : Giocatore) (hc : c.valore = 19) (hp : g[a]? = some p) :
    (0 < d → applicaEffetto (fuel + 1) c g a d vivi
      = Esito.ok (g.set a { p with puntiVita := p.puntiVita + d }, 0)) ∧
    (d = 0 → applicaEffetto (fuel + 1) c g a d vivi = Esito.ok (g, d)) := by
  have h := corpo_re c g a d vivi p hc hp
  constructor
  · intro hd
    rw [if_pos (ne_of_gt hd)] at h
    exact applicaEffetto_di_corpo fuel c g a d vivi _ h rfl
  · intro hd
    rw [if_neg (by simp [hd])] at h
    exact applicaEffetto_di_corpo fuel c g a d vivi _ h rfl

/-- Witness of C6: player 1 of two takes a pool of 3. -/
theorem re_effetto_witness :
    ((⟨0, 19⟩ : Carta).valore = 19 ∧ esempioDue[1]? = some (gioc 1 5 12 16 false) ∧
      (0 : Int) < 3) ∧
    applicaEffetto (0 + 1) ⟨0, 19⟩ esempioDue (1 : Nat) 3 2
      = Esito.ok (esempioDue.set 1 { gioc 1 5 12 16 false with puntiVita := 5 + 3 }, 0) :=
  ⟨by decide,
   (re_effetto 0 ⟨0, 19⟩ esempioDue 1 3 2 (gioc 1 5 12 16 false) rfl rfl).1 (by decide)⟩

/-- C7, the claim as stated fails: among three players, player 0 has one life, the Ace
played first takes it, and the Queen revealed next is resolved at life 0.  That Queen
resolution leaves the life of player 0 at 0 (it does not decrease by 1) while player 2
gains 1. -/
theorem regina_vita_zero :
    applicaEffetto 1 ⟨0, 10⟩ esempioUltimaVita 0 0 3
      = Esito.ok ([gioc 0 0 10 18 false, gioc 1 5 12 13 false, gioc 2 5 13 14 false], 1) ∧
    applicaEffetto 1 ⟨1, 18⟩
        [gioc 0 0 10 18 false, gioc 1 5 12 13 false, gioc 2 5 13 14 false] 0 1 3
      = Esito.ok ([gioc 0 0 10 18 false, gioc 1 5 12 13 false, gioc 2 6 13 14 false], 1) ∧
    svolgiFase 1 0 esempioUltimaVita 0 3 true true
      = Esito.ok ([gioc 0 0 10 18 false, gioc 1 5 12 13 false, gioc 2 6 13 14 false], 1) ∧
    (([gioc 0 0 10 18 false, gioc 1 5 12 13 false, gioc 2 5 13 14 false] :
        List Giocatore)[0]?).map Giocatore.puntiVita = some 0 ∧
    (([gioc 0 0 10 18 false, gioc 1 5 12 13 false, gioc 2 6 13 14 false] :
        List Giocatore)[0]?).map Giocatore.puntiVita ≠ some (0 - 1) := by
  decide

/-- C7 amended: a Queen with active count 2 leaves roster and pool unchanged; with active count
`n > 2` (ids equal to positions) and `p` at the acting position `a`, `q` at position
`(a + 2) mod n`, which is another position, the life of `p` becomes `max (life - 1) 0` and the
life of `q` grows by exactly 1, nothing else changes. -/
theorem regina_effetto (fuel : Nat) (c : Carta) (g : List Giocatore) (d : Int)
    (hc : c.valore = 18) :
    (∀ a : Int, applicaEffetto (fuel + 1) c g a d 2 = Esito.ok (g, d)) ∧
    (∀ (n a : Nat) (p q : Giocatore), 2 < n → idPosizioni g n → a < n → g[a]? = some p →
      g[(a + 2) % n]? = some q →
      (a + 2) % n ≠ a ∧
      applicaEffetto (fuel + 1) c g a d n
        = Esito.ok ((g.set a { p with puntiVita := max (p.puntiVita - 1) 0 }).set
            ((a + 2) % n) { q with puntiVita := q.puntiVita + 1 }, d)) := by
  constructor
  · intro a
    exact applicaEffetto_di_corpo fuel c g a d 2 _ (corpo_regina_due c g a d hc) rfl
  · intro n a p q hn hid ha hp hq
    constructor
    · rcases Nat.lt_or_ge (a + 2) n with h | h
      · rw [Nat.mod_eq_of_lt h]; omega
      · have : a + 2 = (a + 2 - n) + n := by omega
        rw [this, Nat.add_mod_right, Nat.mod_eq_of_lt (by omega)]; omega
    · rw [applicaEffetto_di_corpo fuel c g a d n _
        (corpo_regina c g a n d p q hc hn ha hid hp hq) rfl, perdeVita_eq]
      rfl

/-- Witness of C7 amended: scenario C of the spec, four players, player 2 plays a Queen,
player 2 loses 1 and player 0 gains 1. -/
theorem regina_effetto_witness :
    ((⟨0, 18⟩ : Carta).valore = 18 ∧ 2 < 4 ∧ idPosizioni esempioQuattro 4 ∧ 2 < 4 ∧
      esempioQuattro[2]? = some (gioc 2 5 18 14 false) ∧
      esempioQuattro[(2 + 2) % 4]? = some (gioc 0 5 11 12 false)) ∧
    applicaEffetto (0 + 1) ⟨0, 18⟩ esempioQuattro (2 : Nat) 0 (4 : Nat)
      = Esito.ok ((esempioQuattro.set 2
            { gioc 2 5 18 14 false with puntiVita := max (5 - 1) 0 }).set ((2 + 2) % 4)
            { gioc 0 5 11 12 false with puntiVita := 5 + 1 }, 0) :=
  ⟨by decide,
   ((regina_effetto 0 ⟨0, 18⟩ esempioQuattro 0 rfl).2 4 2 (gioc 2 5 18 14 false)
      (gioc 0 5 11 12 false) (by decide) (by decide) (by decide) rfl rfl).2⟩

/-- C8: a Jack played at position `a` of a roster of `n ≥ 2` players (ids equal to
positions), with `p` at position `a` and `q` at position `(a - 1 + n) mod n`: that is another
position, it is `n - 1` when `a = 0`, the life of `p` becomes `max (life - 1) 0`, the life of
`q` grows by exactly 1, and nothing else changes. -/
theorem fante_effetto (fuel : Nat) (c : Carta) (g : List Giocatore) (a n : Nat) (d : Int)
    (p q : Giocatore) (hc : c.valore = 17) (hn : 2 ≤ n) (hid : idPosizioni g n) (ha : a < n)
    (hp : g[a]? = some p) (hq : g[(a + n - 1) % n]? = some q) :
    (((a + n - 1) % n : Nat) : Int) = ((a : Int) - 1 + n) % n ∧
    (a = 0 → (a + n - 1) % n = n - 1) ∧
    (a + n - 1) % n ≠ a ∧
    applicaEffetto (fuel + 1) c g a d n
      = Esito.ok ((g.set a { p with puntiVita := max (p.puntiVita - 1) 0 }).set
          ((a + n - 1) % n) { q with puntiVita := q.puntiVita + 1 }, d) := by
  refine ⟨?_, ?_, ?_, ?_⟩
  · have : (a : Int) - 1 + n = ((a + n - 1 : Nat) : Int) := by omega
    rw [this]; norm_cast
  · intro h0
    subst h0
    rw [Nat.zero_add, Nat.mod_eq_of_lt (by omega)]
  · rcases Nat.eq_zero_or_pos a with h0 | h0
    · subst h0; rw [Nat.zero_add, Nat.mod_eq_of_lt (by omega)]; omega
    · have : a + n - 1 = (a - 1) + n := by omega
      rw [this, Nat.add_mod_right, Nat.mod_eq_of_lt (by omega)]; omega
  · rw [applicaEffetto_di_corpo fuel c g a d n _
      (corpo_fante c g a n d p q hc hn ha hid hp hq) rfl, perdeVita_eq]
    rfl

/-- Witness of C8: player 0 of four plays a Jack, the gain wraps around to player 3. -/
theorem fante_effetto_witness :
    ((⟨0, 17⟩ : Carta).valore = 17 ∧ 2 ≤ 4 ∧ idPosizioni esempioQuattro 4 ∧ 0 < 4 ∧
      esempioQuattro[0]? = some (gioc 0 5 11 12 false) ∧
      esempioQuattro[(0 + 4 - 1) % 4]? = some (gioc 3 5 13 15 false)) ∧
    applicaEffetto (0 + 1) ⟨0, 17⟩ esempioQuattro (0 : Nat) 0 (4 : Nat)
      = Esito.ok ((esempioQuattro.set 0
            { gioc 0 5 11 12 false with puntiVita := max (5 - 1) 0 }).set ((0 + 4 - 1) % 4)
            { gioc 3 5 13 15 false with puntiVita := 5 + 1 }, 0) :=
  ⟨by decide,
   (fante_effetto 0 ⟨0, 17⟩ esempioQuattro 0 4 0 (gioc 0 5 11 12 false)
      (gioc 3 5 13 15 false) rfl (by decide) (by decide) (by decide) rfl rfl).2.2.2⟩

/-- C9: for an id with `0 ≤ id < n`, the case analyses of `applicaEffetto` agree with the
modular helpers of the spec: for `n ≥ 2` the Seven target is `(id + 1) mod n` and the Jack
target is `(id - 1 + n) mod n`, and for `n ≥ 3` the Queen target is `(id + 2) mod n`. -/
theorem bersagli_modulari (n id : Int) (h0 : 0 ≤ id) (hid : id < n) :
    (2 ≤ n → bersaglioSette n id = specNext n id ∧ bersaglioJ n id = specPrev n id) ∧
    (3 ≤ n → bersaglioQ n id = specNext2 n id) := by
  constructor
  · intro hn
    exact ⟨bersaglioSette_eq h0 hid, bersaglioJ_eq hn h0 hid⟩
  · intro hn
    exact bersaglioQ_eq hn h0 hid

/-- Witness of C9: the last of five players. -/
theorem bersagli_modulari_witness :
    ((0 : Int) ≤ 4 ∧ (4 : Int) < 5 ∧ (3 : Int) ≤ 5) ∧ bersaglioQ 5 4 = specNext2 5 4 :=
  ⟨by decide, (bersagli_modulari 5 4 (by decide) (by decide)).2 (by decide)⟩

/-! ## The player's own reveal -/

/-- C3, evaluated on two players: player 0 looks at the hidden Ace, reveals it and has it
resolved (life 5 to 4, pool 0 to 1), and `svolgiFase` leaves `scoperta2` of player 0 false.
A Seven played afterwards by player 1 therefore finds the card hidden, reveals it and
resolves it a second time (life 4 to 3, pool 1 to 2). -/
theorem svolgiFase_lascia_coperta :
    svolgiFase 3 0 esempioDue 0 2 true true
      = Esito.ok ([gioc 0 4 11 10 false, gioc 1 5 12 16 false], 1) ∧
    applicaEffetto 3 ⟨0, 16⟩ [gioc 0 4 11 10 false, gioc 1 5 12 16 false] 1 1 2
      = Esito.ok ([gioc 0 3 11 10 true, gioc 1 5 12 16 false], 2) := by
  decide

/-! ## The shuffle -/

theorem scriviValori_spec (seme : Int) :
    ∀ (vs : List Int) (pre old post : List Carta), old.length = vs.length →
      scriviValori seme vs (pre ++ old ++ post) pre.length
        = some (pre ++ vs.map (fun v => ({ seme := seme, valore := v } : Carta)) ++ post,
            pre.length + vs.length) := by
  intro vs
  induction vs with
  | nil =>
    intro pre old post h
    have : old = [] := List.length_eq_zero.mp h
    simp [scriviValori, this]
  | cons v vs ih =>
    intro pre old post h
    cases old with
    | nil => simp at h
    | cons o old1 =>
      have hlen : pre.length < (pre ++ o :: old1 ++ post).length := by
        simp only [List.length_append, List.length_cons]; omega
      have hset : (pre ++ o :: old1 ++ post).set pre.length { seme := seme, valore := v }
          = (pre ++ [{ seme := seme, valore := v }]) ++ old1 ++ post := by
        simp [List.append_assoc]
      have hih := ih (pre ++ [{ seme := seme, valore := v }]) old1 post
        (by simpa using h)
      simp only [scriviValori, hlen, if_true, hset]
      rw [show pre.length + 1 = (pre ++ [({ seme := seme, valore := v } : Carta)]).length by
        simp, hih]
      simp [List.append_assoc, Nat.add_assoc, Nat.add_comm 1]

theorem scriviSemi_spec :
    ∀ (ss : List Int) (pre old post : List Carta), old.length = ss.length * 10 →
      scriviSemi ss (pre ++ old ++ post) pre.length
        = some (pre ++ ss.flatMap (fun seme =>
              valori.map (fun v => ({ seme := seme, valore := v } : Carta))) ++ post,
            pre.length + ss.length * 10) := by
  intro ss
  induction ss with
  | nil =>
    intro pre old post h
    have : old = [] := List.length_eq_zero.mp (by simpa using h)
    simp [scriviSemi, this]
  | cons seme ss ih =>
    intro pre old post h
    have hsplit : pre ++ old ++ post = pre ++ old.take 10 ++ (old.drop 10 ++ post) := by
      rw [List.append_assoc pre (old.take 10), ← List.append_assoc (old.take 10),
        List.take_append_drop, List.append_assoc]
    have hlen : old.length = ss.length * 10 + 10 := by
      simp only [List.length_cons] at h; omega
    have htake : (old.take 10).length = valori.length := by
      simp only [List.length_take, valori, List.length_cons, List.length_nil]; omega
    have hv := scriviValori_spec seme valori pre (old.take 10) (old.drop 10 ++ post) htake
    have hdrop : (old.drop 10).length = ss.length * 10 := by
      simp only [List.length_drop]; omega
    have hih := ih (pre ++ valori.map (fun v => ({ seme := seme, valore := v } : Carta)))
      (old.drop 10) post hdrop
    simp only [scriviSemi, hsplit, hv]
    rw [show pre.length + valori.length
        = (pre ++ valori.map (fun v => ({ seme := seme, valore := v } : Carta))).length by
      simp, ← List.append_assoc, hih]
    simp only [List.flatMap_cons, List.append_assoc, List.length_append, List.length_map,
      List.length_cons, valori, List.length_nil]
    congr 2
    omega

theorem scriviSemi_canonico (mazzo : List Carta) (h : mazzo.length = 40) :
    scriviSemi semi mazzo 0 = some (mazzoCanonico, 40) := by
  have := scriviSemi_spec semi [] mazzo [] (by simpa [semi] using h)
  simpa [mazzoCanonico, semi] using this

theorem scambia_perm {m m1 : List Carta} {i j : Nat} (h : scambia m i j = some m1) :
    m1.Perm m := by
  unfold scambia at h
  split at h
  · next ci cj hi hj =>
    cases h
    obtain ⟨hil, hie⟩ := List.getElem?_eq_some.mp hi
    obtain ⟨hjl, hje⟩ := List.getElem?_eq_some.mp hj
    rw [List.perm_iff_count]
    intro b
    have hjl1 : j < (m.set i cj).length := by simpa using hjl
    have hget : (m.set i cj)[j] = cj := by
      rw [List.getElem_set]; split <;> simp [hje]
    have hpos : ci = b → 1 ≤ m.count b := by
      intro hb
      have hmem : b ∈ m := hb ▸ hie ▸ List.getElem_mem hil
      exact List.count_pos_iff.mpr hmem
    rw [List.count_set _ _ _ _ hjl1, List.count_set _ _ _ _ hil, hget, hie]
    simp only [beq_iff_eq]
    by_cases h1 : ci = b
    · have h3 := hpos h1
      by_cases h2 : cj = b <;> simp only [h1, h2, if_true, if_false] <;> omega
    · by_cases h2 : cj = b <;> simp only [h1, h2, if_true, if_false] <;> omega
  · cases h

theorem scambia_some {m : List Carta} {i j : Nat} (hi : i < m.length) (hj : j < m.length) :
    ∃ m1, scambia m i j = some m1 := by
  unfold scambia
  rw [List.getElem?_eq_getElem hi, List.getElem?_eq_getElem hj]
  exact ⟨_, rfl⟩

theorem mescolaCiclo_perm (rnd : Nat → Nat) :
    ∀ (i t : Nat) (m : List Carta), i < m.length →
      ∃ m1, mescolaCiclo rnd i t m = some m1 ∧ m1.Perm m := by
  intro i
  induction i with
  | zero => intro t m _; exact ⟨m, rfl, List.Perm.refl _⟩
  | succ i ih =>
    intro t m hi
    have hj : rnd t % (i + 1 + 1) < m.length :=
      lt_of_lt_of_le (Nat.mod_lt _ (by omega)) (by omega)
    obtain ⟨m1, hm1⟩ := scambia_some hi hj
    have hp := scambia_perm hm1
    obtain ⟨m2, hm2, hp2⟩ := ih (t + 1) m1 (by rw [hp.length_eq]; omega)
    exact ⟨m2, by simp only [mescolaCiclo, hm1, hm2], hp2.trans hp⟩

theorem mazzoCanonico_nodup : mazzoCanonico.Nodup := by decide

theorem mazzoCanonico_mem (s v : Int) (hs0 : 0 ≤ s) (hs : s < 4) (hv0 : 10 ≤ v) (hv : v ≤ 19) :
    ({ seme := s, valore := v } : Carta) ∈ mazzoCanonico := by
  simp only [mazzoCanonico, semi, valori, List.mem_flatMap, List.mem_map, List.mem_cons,
    List.mem_singleton, List.not_mem_nil, or_false, Carta.mk.injEq]
  exact ⟨s, by omega, v, by omega, rfl, rfl⟩

/-- C10: whatever values the random source returns and whatever the 40 entries of `mazzo`
held before, `mescolaMazzo(mazzo, 40)` returns with `mazzo` a permutation of the canonical
deck, so each pair (seme in 0..3, valore in 10..19) occurs exactly once. -/
theorem mescolaMazzo_permutazione (rnd : Nat → Nat) (mazzo : List Carta)
    (h : mazzo.length = 40) :
    ∃ m, mescolaMazzo rnd mazzo 40 = some m ∧ m.Perm mazzoCanonico ∧ m.length = 40 ∧
      ∀ s v : Int, 0 ≤ s → s < 4 → 10 ≤ v → v ≤ 19 →
        m.count { seme := s, valore := v } = 1 := by
  obtain ⟨m, hm, hp⟩ := mescolaCiclo_perm rnd 39 0 mazzoCanonico (by decide)
  refine ⟨m, ?_, hp, ?_, ?_⟩
  · unfold mescolaMazzo
    rw [scriviSemi_canonico mazzo h]
    exact hm
  · rw [hp.length_eq]; decide
  · intro s v hs0 hs hv0 hv
    rw [hp.count_eq]
    exact List.count_eq_one_of_mem mazzoCanonico_nodup (mazzoCanonico_mem s v hs0 hs hv0 hv)

/-- Witness of C10: a deck of 40 copies of one card and a random source that always
returns 7. -/
theorem mescolaMazzo_permutazione_witness :
    (List.replicate 40 (⟨0, 0⟩ : Carta)).length = 40 ∧
    ∃ m, mescolaMazzo (fun _ => 7) (List.replicate 40 ⟨0, 0⟩) 40 = some m ∧
      m.Perm mazzoCanonico ∧ m.length = 40 ∧
      ∀ s v : Int, 0 ≤ s → s < 4 → 10 ≤ v → v ≤ 19 →
        m.count { seme := s, valore := v } = 1 :=
  ⟨by decide, mescolaMazzo_permutazione (fun _ => 7) (List.replicate 40 ⟨0, 0⟩) (by decide)⟩

/-! ## What effect resolution leaves untouched -/

theorem stesso_refl (p : Giocatore) : Stesso p p := ⟨rfl, rfl, rfl, rfl, fun h => h⟩

theorem stesso_trans {p p1 p2 : Giocatore} (h1 : Stesso p p1) (h2 : Stesso p1 p2) :
    Stesso p p2 :=
  ⟨h2.1.trans h1.1, h2.2.1.trans h1.2.1, h2.2.2.1.trans h1.2.2.1,
    h2.2.2.2.1.trans h1.2.2.2.1, fun h => h2.2.2.2.2 (h1.2.2.2.2 h)⟩

theorem cornice_refl (g : List Giocatore) : Cornice g g :=
  ⟨rfl, fun i p p1 h h1 => by rw [h] at h1; cases h1; exact stesso_refl p⟩

theorem cornice_trans {g g1 g2 : List Giocatore} (h1 : Cornice g g1) (h2 : Cornice g1 g2) :
    Cornice g g2 := by
  refine ⟨h2.1.trans h1.1, ?_⟩
  intro i p p2 hp hp2
  have hi : i < g1.length := by
    rw [h1.1]
    rcases Nat.lt_or_ge i g.length with h | h
    · exact h
    · rw [List.getElem?_eq_none h] at hp; cases hp
  exact stesso_trans (h1.2 i p _ hp (List.getElem?_eq_getElem hi))
    (h2.2 i _ p2 (List.getElem?_eq_getElem hi) hp2)

theorem cornice_set (g : List Giocatore) (k : Nat) (q : Giocatore)
    (h : ∀ p, g[k]? = some p → Stesso p q) : Cornice g (g.set k q) := by
  refine ⟨by simp, ?_⟩
  intro i p p1 hp hp1
  by_cases hki : k = i
  · subst hki
    have hlen : k < g.length := by
      rcases Nat.lt_or_ge k g.length with h | h
      · exact h
      · rw [List.getElem?_eq_none h] at hp; cases hp
    rw [List.getElem?_set_self hlen] at hp1
    cases hp1
    exact h p hp
  · rw [List.getElem?_set_ne hki, hp] at hp1
    cases hp1
    exact stesso_refl p

theorem leggi_getElem {g : List Giocatore} {i : Int} {p : Giocatore} (h : leggi g i = some p) :
    g[i.toNat]? = some p := by
  unfold leggi at h
  split at h
  · exact h
  · cases h

theorem cornice_leggi_set (g : List Giocatore) (i : Int) (p q : Giocatore)
    (hp : leggi g i = some p) (h : Stesso p q) : Cornice g (g.set i.toNat q) := by
  apply cornice_set
  intro p1 hp1
  rw [leggi_getElem hp] at hp1
  cases hp1
  exact h

theorem stesso_perdeVita (p : Giocatore) : Stesso p (perdeVita p) :=
  ⟨rfl, rfl, rfl, rfl, fun h => h⟩

theorem stesso_guadagnaVita (p : Giocatore) : Stesso p (guadagnaVita p) :=
  ⟨rfl, rfl, rfl, rfl, fun h => h⟩

theorem stesso_scopre (p : Giocatore) : Stesso p (scopre p) :=
  ⟨rfl, rfl, rfl, rfl, fun _ => rfl⟩

theorem cornice_trasferisce {g g2 : List Giocatore} (a t : Int) (p : Giocatore)
    (hp : leggi g a = some p)
    (h : modifica (g.set a.toNat (perdeVita p)) t guadagnaVita = some g2) : Cornice g g2 := by
  obtain ⟨q, hq, rfl⟩ := modifica_some h
  exact cornice_trans (cornice_leggi_set g a p _ hp (stesso_perdeVita p))
    (cornice_leggi_set _ t q _ hq (stesso_guadagnaVita q))

theorem corpo_cornice (vivi : Int) (s s1 : Stato) (hc : corpo vivi s = some s1) :
    Cornice s.giocatori s1.giocatori := by
  unfold corpo at hc
  simp only at hc
  split at hc
  · split at hc
    · cases hc
    · next p hp => cases hc; exact cornice_leggi_set _ _ p _ hp (stesso_perdeVita p)
  split at hc
  · split at hc
    · cases hc
    split at hc
    · cases hc
    · next q hq =>
      split at hc
      · cases hc; exact cornice_leggi_set _ _ q _ hq (stesso_scopre q)
      · cases hc; exact cornice_refl _
  split at hc
  · split at hc
    · cases hc
    · next p hp =>
      split at hc
      · cases hc
      split at hc
      · cases hc
      · next g2 hm => cases hc; exact cornice_trasferisce _ _ p hp hm
  split at hc
  · split at hc
    · cases hc; exact cornice_refl _
    split at hc
    · cases hc
    · next p hp =>
      split at hc
      · cases hc
      split at hc
      · cases hc
      · next g2 hm => cases hc; exact cornice_trasferisce _ _ p hp hm
  split at hc
  · split at hc
    · cases hc
    · next p hp =>
      split at hc
      · cases hc; exact cornice_leggi_set _ _ p _ hp ⟨rfl, rfl, rfl, rfl, fun h => h⟩
      · cases hc; exact cornice_refl _
  · cases hc; exact cornice_refl _

theorem ciclo_cornice (vivi : Int) :
    ∀ (fuel : Nat) (s r : Stato), ciclo vivi fuel s = Esito.ok r →
      Cornice s.giocatori r.giocatori := by
  intro fuel
  induction fuel with
  | zero =>
    intro s r h
    cases hs : s.effettoCompletato with
    | true => rw [ciclo_completato _ _ _ hs] at h; cases h; exact cornice_refl _
    | false => simp [ciclo, hs] at h
  | succ fuel ih =>
    intro s r h
    cases hs : s.effettoCompletato with
    | true => rw [ciclo_completato _ _ _ hs] at h; cases h; exact cornice_refl _
    | false =>
      cases hc : corpo vivi s with
      | none => simp [ciclo, hs, hc] at h
      | some s1 =>
        rw [ciclo_succ _ _ _ _ hs hc] at h
        exact cornice_trans (corpo_cornice vivi s s1 hc) (ih s1 r h)

theorem applicaEffetto_cornice {fuel : Nat} {c : Carta} {g g1 : List Giocatore}
    {a d d1 vivi : Int} (h : applicaEffetto fuel c g a d vivi = Esito.ok (g1, d1)) :
    Cornice g g1 := by
  obtain ⟨s, hs, hr⟩ := applicaEffetto_ok h
  cases hr
  exact ciclo_cornice vivi fuel _ s hs

theorem cornice_getElem {g g1 : List Giocatore} (h : Cornice g g1) {i : Nat} {p : Giocatore}
    (hp : g[i]? = some p) : ∃ p1, g1[i]? = some p1 ∧ Stesso p p1 := by
  have hi : i < g1.length := by
    rw [h.1]
    rcases Nat.lt_or_ge i g.length with h | h
    · exact h
    · rw [List.getElem?_eq_none h] at hp; cases hp
  exact ⟨g1[i], List.getElem?_eq_getElem hi, h.2 i p _ hp (List.getElem?_eq_getElem hi)⟩

theorem cornice_idPosizioni {g g1 : List Giocatore} {n : Nat} (h : Cornice g g1)
    (hid : idPosizioni g n) : idPosizioni g1 n := by
  intro i hi
  obtain ⟨p, hp, hpid⟩ := idPosizioni_get hid hi
  obtain ⟨p1, hp1, hst⟩ := cornice_getElem h hp
  simp [hp1, hst.1, hpid]

/-! ## Cards without effect and the turn of a player -/

/-- C18: a card of rank 2 to 6 (valore 11..15) makes `applicaEffetto` return the roster
(every life, hand and revealed flag) and the pool exactly as they were, for any roster, pool,
acting index and active count. -/
theorem carte_senza_effetto (fuel : Nat) (c : Carta) (g : List Giocatore) (a d vivi : Int)
    (h1 : 11 ≤ c.valore) (h2 : c.valore ≤ 15) :
    applicaEffetto (fuel + 1) c g a d vivi = Esito.ok (g, d) := by
  have h := corpo_nullo vivi (statoIniziale c g a d) (by simp only [statoIniziale]; omega)
    (by simp only [statoIniziale]; omega) (by simp only [statoIniziale]; omega)
    (by simp only [statoIniziale]; omega) (by simp only [statoIniziale]; omega)
  exact applicaEffetto_di_corpo fuel c g a d vivi _ h rfl

/-- Witness of C18: a Four played by player 1 of two. -/
theorem carte_senza_effetto_witness :
    ((11 : Int) ≤ (⟨2, 13⟩ : Carta).valore ∧ (⟨2, 13⟩ : Carta).valore ≤ 15) ∧
    applicaEffetto (0 + 1) ⟨2, 13⟩ esempioDue 1 4 2 = Esito.ok (esempioDue, 4) :=
  ⟨by decide, carte_senza_effetto 0 ⟨2, 13⟩ esempioDue 1 4 2 (by decide) (by decide)⟩

/-- C16: the turn of the player `p` at position `a` of a roster of `n ≥ 2` players (ids equal
to positions).  The primary card is resolved with `a` acting and returns a roster `g1` and
a pool `d1`; the second card of the player is the same card afterwards.  If the second card
is still hidden in `g1` and both answers are yes, `svolgiFase` returns what resolving the
second card with `a` acting returns on `g1` and `d1`; in every other case it returns `g1` and
`d1`.  In all cases `svolgiFase` returns. -/
theorem svolgiFase_esito (fuel n a : Nat) (g : List Giocatore) (d : Int) (p : Giocatore)
    (visiona scopri : Bool) (hn : 2 ≤ n) (hid : idPosizioni g n) (ha : a < n)
    (hp : g[a]? = some p) (hf : n + 1 ≤ fuel) :
    ∃ g1 d1 p1, applicaEffetto fuel p.mano.carta1 g a d n = Esito.ok (g1, d1) ∧
      g1[a]? = some p1 ∧ p1.mano.carta2 = p.mano.carta2 ∧
      svolgiFase fuel a g d n visiona scopri
        = (if p1.mano.scoperta2 = false ∧ visiona = true ∧ scopri = true then
            applicaEffetto fuel p.mano.carta2 g1 a d1 n
          else Esito.ok (g1, d1)) ∧
      ∃ r, svolgiFase fuel a g d n visiona scopri = Esito.ok r := by
  obtain ⟨⟨g1, d1⟩, h1⟩ := applicaEffetto_termina hn fuel p.mano.carta1 g a d hid ha hf
  have hcor := applicaEffetto_cornice h1
  obtain ⟨p1, hp1, hst⟩ := cornice_getElem hcor hp
  have hid1 := cornice_idPosizioni hcor hid
  obtain ⟨r2, h2⟩ := applicaEffetto_termina hn fuel p.mano.carta2 g1 a d1 hid1 ha hf
  have hsv : svolgiFase fuel a g d n visiona scopri
      = (if p1.mano.scoperta2 = false ∧ visiona = true ∧ scopri = true then
          applicaEffetto fuel p.mano.carta2 g1 a d1 n
        else Esito.ok (g1, d1)) := by
    simp only [svolgiFase, leggi_natCast, hp, h1, hp1, hst.2.2.2.1]
    cases p1.mano.scoperta2 <;> cases visiona <;> cases scopri <;> simp
  refine ⟨g1, d1, p1, h1, hp1, hst.2.2.2.1, hsv, ?_⟩
  rw [hsv]
  split
  · exact ⟨r2, h2⟩
  · exact ⟨_, rfl⟩

/-- Witness of C16: player 0 of two plays a Two, looks at the hidden Ace and has it
resolved. -/
theorem svolgiFase_esito_witness :
    (2 ≤ 2 ∧ idPosizioni esempioDue 2 ∧ 0 < 2 ∧
      esempioDue[0]? = some (gioc 0 5 11 10 false) ∧ 2 + 1 ≤ 3) ∧
    ∃ r, svolgiFase 3 (0 : Nat) esempioDue 0 (2 : Nat) true true = Esito.ok r :=
  ⟨by decide,
   (svolgiFase_esito 3 2 0 esempioDue 0 (gioc 0 5 11 10 false) true true (by decide)
      (by decide) (by decide) rfl (by decide)).elim
     (fun _ h => h.elim (fun _ h => h.elim (fun _ h => h.2.2.2.2)))⟩

/-! ## The indices touched by effect resolution -/

theorem leggi_set_none (g : List Giocatore) (k : Nat) (x : Giocatore) (i : Int) :
    leggi (g.set k x) i = none ↔ leggi g i = none := by
  unfold leggi
  split
  · simp [List.getElem?_eq_none_iff]
  · simp

theorem modifica_none (g : List Giocatore) (i : Int) (f : Giocatore → Giocatore) :
    modifica g i f = none ↔ leggi g i = none := by
  unfold modifica
  split <;> simp_all

/-- The list `accessi` is faithful to `corpo`: an iteration fails exactly when one of the
listed indices is outside the array. -/
theorem corpo_none_iff (vivi : Int) (s : Stato) :
    corpo vivi s = none ↔ ∃ i ∈ accessi vivi s, leggi s.giocatori i = none := by
  unfold corpo accessi
  simp only
  split
  · split <;> simp_all
  split
  · split
    · simp_all
    · next p hp =>
      try simp only [hp]
      split
      · simp_all
      · split <;> simp_all
  split
  · split
    · simp_all
    · next p hp =>
      try simp only [hp]
      split
      · simp_all
      · next q hq =>
        cases hm : modifica (s.giocatori.set s.attuale.toNat (perdeVita p))
            (bersaglioJ vivi p.id) guadagnaVita with
        | none =>
          rw [modifica_none, leggi_set_none] at hm
          simp [hm] at hq
        | some g2 => simp_all
  split
  · split
    · simp
    split
    · simp_all
    · next p hp =>
      try simp only [hp]
      split
      · simp_all
      · next q hq =>
        cases hm : modifica (s.giocatori.set s.attuale.toNat (perdeVita p))
            (bersaglioQ vivi p.id) guadagnaVita with
        | none =>
          rw [modifica_none, leggi_set_none] at hm
          simp [hm] at hq
        | some g2 => simp_all
  split
  · split
    · simp_all
    · split <;> simp_all
  · simp

theorem accessi_validi {n : Nat} (hn : 2 ≤ n) (s : Stato) (hv : Valido n s) :
    ∀ i ∈ accessi n s, 0 ≤ i ∧ i < n := by
  obtain ⟨hid, a, hatt, ha⟩ := hv
  obtain ⟨p, hp, hpid⟩ := idPosizioni_get hid ha
  have hl : leggi s.giocatori s.attuale = some p := by rw [hatt, leggi_natCast, hp]
  have h7 := bersaglioSette_nat (n := n) ha
  have hm7 := mod_lt_di hn (a + 1)
  have hJ := bersaglioJ_nat hn ha
  have hmJ := mod_lt_di hn (a + n - 1)
  have hmQ := mod_lt_di hn (a + 2)
  generalize (a + 1) % n = t7 at h7 hm7
  generalize (a + n - 1) % n = tJ at hJ hmJ
  intro i hi
  unfold accessi at hi
  simp only [hl, hpid] at hi
  split at hi
  · simp only [List.mem_singleton] at hi; omega
  split at hi
  · simp only [List.mem_cons, List.mem_singleton, List.not_mem_nil, or_false] at hi
    rcases hi with h | h <;> omega
  split at hi
  · simp only [List.mem_cons, List.mem_singleton, List.not_mem_nil, or_false] at hi
    rcases hi with h | h <;> omega
  split at hi
  · split at hi
    · simp at hi
    · next h2 =>
      have h3 : 3 ≤ n := by omega
      have hQ := bersaglioQ_nat h3 ha
      generalize (a + 2) % n = tQ at hQ hmQ
      simp only [List.mem_cons, List.mem_singleton, List.not_mem_nil, or_false] at hi
      rcases hi with h | h <;> omega
  split at hi
  · simp only [List.mem_singleton] at hi; omega
  · simp at hi

theorem accessiCiclo_validi {n : Nat} (hn : 2 ≤ n) :
    ∀ (fuel : Nat) (s : Stato), Valido n s → ∀ i ∈ accessiCiclo n fuel s, 0 ≤ i ∧ i < n := by
  intro fuel
  induction fuel with
  | zero => intro s _ i hi; simp [accessiCiclo] at hi
  | succ fuel ih =>
    intro s hv i hi
    cases hs : s.effettoCompletato with
    | true => simp [accessiCiclo, hs] at hi
    | false =>
      obtain ⟨s1, hc, hsalto⟩ := corpo_valido hn s hv hs
      simp only [accessiCiclo, hs, hc, Bool.false_eq_true, if_false, List.mem_append] at hi
      rcases hi with h | h
      · exact accessi_validi hn s hv i h
      · cases hs1 : s1.effettoCompletato with
        | true =>
          cases fuel with
          | zero => simp [accessiCiclo] at h
          | succ f => simp [accessiCiclo, hs1] at h
        | false => exact ih s1 (salto_valido hv (hsalto hs1)) i h

/-- C20: for a roster of `n ≥ 2` players whose ids equal their positions, an acting index
below `n` and any card, every index of the roster that `applicaEffetto` reads or writes, in
any iteration of its loop and so through any Seven chain, lies in `0..n-1`; the call returns
a result, so the out-of-bounds outcome does not occur. -/
theorem accessi_nei_limiti (fuel n a : Nat) (c : Carta) (g : List Giocatore) (d : Int)
    (hn : 2 ≤ n) (hid : idPosizioni g n) (ha : a < n) (hf : n + 1 ≤ fuel) :
    (∀ i ∈ accessiCiclo n fuel (statoIniziale c g a d), 0 ≤ i ∧ i < n) ∧
    (∃ r, applicaEffetto fuel c g a d n = Esito.ok r) ∧
    applicaEffetto fuel c g a d n ≠ Esito.fuoriLimiti := by
  have hv : Valido n (statoIniziale c g a d) := ⟨hid, a, rfl, ha⟩
  obtain ⟨r, hr⟩ := applicaEffetto_termina hn fuel c g a d hid ha hf
  refine ⟨accessiCiclo_validi hn fuel _ hv, ⟨r, hr⟩, ?_⟩
  rw [hr]
  intro h
  cases h

/-- Witness of C20: the Seven chain on two players touches the indices 0, 1, 1, 0, 0. -/
theorem accessi_nei_limiti_witness :
    (2 ≤ 2 ∧ idPosizioni esempioDue 2 ∧ 0 < 2 ∧ 2 + 1 ≤ 3) ∧
    (∀ i ∈ accessiCiclo (2 : Nat) 3 (statoIniziale ⟨0, 16⟩ esempioDue (0 : Nat) 0),
      0 ≤ i ∧ i < (2 : Nat)) ∧
    accessiCiclo 2 3 (statoIniziale ⟨0, 16⟩ esempioDue 0 0) = [0, 1, 1, 0, 0] :=
  ⟨by decide,
   (accessi_nei_limiti 3 2 0 ⟨0, 16⟩ esempioDue 0 (by decide) (by decide) (by decide)
      (by decide)).1,
   by decide⟩

/-! ## The total of the life points -/

theorem somma_set : ∀ (g : List Giocatore) (i : Nat) (p q : Giocatore), g[i]? = some p →
    ((g.set i q).map Giocatore.puntiVita).sum
      = (g.map Giocatore.puntiVita).sum - p.puntiVita + q.puntiVita := by
  intro g
  induction g with
  | nil => intro i p q h; simp at h
  | cons x xs ih =>
    intro i p q h
    cases i with
    | zero =>
      simp only [List.getElem?_cons_zero, Option.some.injEq] at h
      subst h
      simp only [List.set_cons_zero, List.map_cons, List.sum_cons]
      omega
    | succ i =>
      simp only [List.getElem?_cons_succ] at h
      simp only [List.set_cons_succ, List.map_cons, List.sum_cons, ih i p q h]
      omega

theorem vite_set {g : List Giocatore} {b : Int} (hg : ∀ p ∈ g, b ≤ p.puntiVita) (k : Nat)
    (q : Giocatore) (hq : b ≤ q.puntiVita) : ∀ p ∈ g.set k q, b ≤ p.puntiVita := by
  intro p hp
  rcases List.mem_or_eq_of_mem_set hp with h | h
  · exact hg p h
  · rw [h]; exact hq

theorem salto_totale {n : Nat} {s s1 : Stato} (h : Salto n s s1) :
    totale s1.giocatori s1.depositati = totale s.giocatori s.depositati ∧
    ∀ b : Int, (∀ p ∈ s.giocatori, b ≤ p.puntiVita) → ∀ p ∈ s1.giocatori, b ≤ p.puntiVita := by
  obtain ⟨t, q, -, -, hq, -, hg, -, hd⟩ := h
  constructor
  · rw [totale, totale, hg, hd, somma_set _ t q _ hq]
    simp only [scopre]
    omega
  · intro b hb
    rw [hg]
    exact vite_set hb t _ (hb q (List.getElem?_mem hq))

theorem trasferisce_totale (g : List Giocatore) (a t : Nat) (p q : Giocatore) (d : Int)
    (hp : g[a]? = some p) (hq : g[t]? = some q) (hne : t ≠ a) (h0 : 0 ≤ p.puntiVita) :
    (totale ((g.set a (perdeVita p)).set t (guadagnaVita q)) d = totale g d ∨
      totale ((g.set a (perdeVita p)).set t (guadagnaVita q)) d = totale g d + 1) ∧
    (1 ≤ p.puntiVita →
      totale ((g.set a (perdeVita p)).set t (guadagnaVita q)) d = totale g d) := by
  have hq1 : (g.set a (perdeVita p))[t]? = some q := by
    rw [List.getElem?_set_ne (fun h => hne h.symm)]; exact hq
  have hv := perdeVita_vita p
  simp only [totale, somma_set _ t q _ hq1, somma_set _ a p _ hp, hv, guadagnaVita]
  rcases le_or_lt 1 p.puntiVita with h | h
  · rw [max_eq_left (by omega)]
    exact ⟨Or.inl (by omega), fun _ => by omega⟩
  · rw [max_eq_right (by omega)]
    exact ⟨Or.inr (by omega), fun h1 => by omega⟩

theorem corpo_totale {n : Nat} (hn : 2 ≤ n) (s s1 : Stato) (hv : Valido n s)
    (hs : s.effettoCompletato = false) (h0 : ∀ p ∈ s.giocatori, 0 ≤ p.puntiVita)
    (hc : corpo n s = some s1) (hs1 : s1.effettoCompletato = true) :
    (totale s1.giocatori s1.depositati = totale s.giocatori s.depositati ∨
      totale s1.giocatori s1.depositati = totale s.giocatori s.depositati + 1) ∧
    ((∀ p ∈ s.giocatori, 1 ≤ p.puntiVita) →
      totale s1.giocatori s1.depositati = totale s.giocatori s.depositati) := by
  obtain ⟨hid, a, hatt, ha⟩ := hv
  obtain ⟨p, hp, -⟩ := idPosizioni_get hid ha
  have hp0 := h0 p (List.getElem?_mem hp)
  have hst : s = statoIniziale s.c s.giocatori a s.depositati := by
    cases s; simp only [statoIniziale] at *; simp [hatt, hs]
  have hne2 : (a + 2) % n ≠ a ∨ n < 3 := by
    rcases Nat.lt_or_ge n 3 with h | h
    · exact Or.inr h
    · left
      rcases Nat.lt_or_ge (a + 2) n with h1 | h1
      · rw [Nat.mod_eq_of_lt h1]; omega
      · have : a + 2 = (a + 2 - n) + n := by omega
        rw [this, Nat.add_mod_right, Nat.mod_eq_of_lt (by omega)]; omega
  have hneJ : (a + n - 1) % n ≠ a := by
    rcases Nat.eq_zero_or_pos a with h0 | h0
    · subst h0; rw [Nat.zero_add, Nat.mod_eq_of_lt (by omega)]; omega
    · have : a + n - 1 = (a - 1) + n := by omega
      rw [this, Nat.add_mod_right, Nat.mod_eq_of_lt (by omega)]; omega
  by_cases c0 : s.c.valore = 10
  · rw [hst, corpo_asso _ _ _ _ _ _ c0 hp] at hc
    cases hc
    have hv := perdeVita_vita p
    simp only [totale, somma_set _ a p _ hp, hv]
    rcases le_or_lt 1 p.puntiVita with h | h
    · rw [max_eq_left (by omega)]
      exact ⟨Or.inl (by omega), fun _ => by omega⟩
    · rw [max_eq_right (by omega)]
      exact ⟨Or.inr (by omega), fun h1 => by have := h1 p (List.getElem?_mem hp); omega⟩
  by_cases c6 : s.c.valore = 16
  · obtain ⟨q, hq, -⟩ := idPosizioni_get hid (mod_lt_di hn (a + 1))
    rw [hst, corpo_sette _ _ _ _ _ q c6 ha hid hq] at hc
    cases hsc : q.mano.scoperta2
    · rw [if_pos hsc] at hc; cases hc; simp at hs1
    · rw [if_neg (by simp [hsc])] at hc; cases hc
      exact ⟨Or.inl rfl, fun _ => rfl⟩
  by_cases c7 : s.c.valore = 17
  · obtain ⟨q, hq, -⟩ := idPosizioni_get hid (mod_lt_di hn (a + n - 1))
    rw [hst, corpo_fante _ _ _ _ _ p q c7 hn ha hid hp hq] at hc
    cases hc
    have := trasferisce_totale s.giocatori a _ p q s.depositati hp hq hneJ hp0
    exact ⟨this.1, fun h1 => this.2 (h1 p (List.getElem?_mem hp))⟩
  by_cases c8 : s.c.valore = 18
  · rcases Nat.lt_or_ge n 3 with h3 | h3
    · have h2 : n = 2 := by omega
      subst h2
      have := corpo_regina_due s.c s.giocatori s.attuale s.depositati c8
      rw [hst] at hc; rw [hatt] at this
      rw [show ((2 : Nat) : Int) = 2 from rfl, this] at hc
      cases hc
      exact ⟨Or.inl rfl, fun _ => rfl⟩
    · obtain ⟨q, hq, -⟩ := idPosizioni_get hid (mod_lt_di hn (a + 2))
      rw [hst, corpo_regina _ _ _ _ _ p q c8 h3 ha hid hp hq] at hc
      cases hc
      have hne : (a + 2) % n ≠ a := by
        rcases hne2 with h | h
        · exact h
        · omega
      have := trasferisce_totale s.giocatori a _ p q s.depositati hp hq hne hp0
      exact ⟨this.1, fun h1 => this.2 (h1 p (List.getElem?_mem hp))⟩
  by_cases c9 : s.c.valore = 19
  · rw [hst, corpo_re _ _ _ _ _ _ c9 hp] at hc
    split at hc
    · cases hc
      have : totale (s.giocatori.set a { p with puntiVita := p.puntiVita + s.depositati }) 0
          = totale s.giocatori s.depositati := by
        simp only [totale, somma_set _ a p _ hp]; omega
      exact ⟨Or.inl this, fun _ => this⟩
    · cases hc
      exact ⟨Or.inl rfl, fun _ => rfl⟩
  · rw [corpo_nullo _ _ c0 c6 c7 c8 c9] at hc
    cases hc
    exact ⟨Or.inl rfl, fun _ => rfl⟩

theorem ciclo_totale {n : Nat} (hn : 2 ≤ n) :
    ∀ (fuel : Nat) (s r : Stato), Valido n s → (∀ p ∈ s.giocatori, 0 ≤ p.puntiVita) →
      ciclo n fuel s = Esito.ok r →
      (totale r.giocatori r.depositati = totale s.giocatori s.depositati ∨
        totale r.giocatori r.depositati = totale s.giocatori s.depositati + 1) ∧
      ((∀ p ∈ s.giocatori, 1 ≤ p.puntiVita) →
        totale r.giocatori r.depositati = totale s.giocatori s.depositati) := by
  intro fuel
  induction fuel with
  | zero =>
    intro s r _ _ h
    cases hs : s.effettoCompletato with
    | true => rw [ciclo_completato _ _ _ hs] at h; cases h; exact ⟨Or.inl rfl, fun _ => rfl⟩
    | false => simp [ciclo, hs] at h
  | succ fuel ih =>
    intro s r hv h0 h
    cases hs : s.effettoCompletato with
    | true => rw [ciclo_completato _ _ _ hs] at h; cases h; exact ⟨Or.inl rfl, fun _ => rfl⟩
    | false =>
      obtain ⟨s1, hc, hsalto⟩ := corpo_valido hn s hv hs
      rw [ciclo_succ _ _ _ _ hs hc] at h
      cases hs1 : s1.effettoCompletato with
      | true =>
        rw [ciclo_completato _ _ _ hs1] at h
        cases h
        exact corpo_totale hn s r hv hs h0 hc hs1
      | false =>
        have hsl := hsalto hs1
        obtain ⟨ht, hb⟩ := salto_totale hsl
        have := ih s1 r (salto_valido hv hsl) (hb 0 h0) h
        rw [ht] at this
        exact ⟨this.1, fun h1 => this.2 (hb 1 h1)⟩

/-- C19: for a roster of `n ≥ 2` players with non-negative lives whose ids equal their
positions, any pool, any acting index below `n` and any card, `applicaEffetto` returns, and
the sum of all life totals plus the pool afterwards is the sum before or exactly 1 more; it
is the sum before whenever every player had at least 1 life before the call. -/
theorem vita_non_distrutta (fuel n a : Nat) (c : Carta) (g : List Giocatore) (d : Int)
    (hn : 2 ≤ n) (hid : idPosizioni g n) (ha : a < n) (hg : ∀ p ∈ g, 0 ≤ p.puntiVita)
    (hf : n + 1 ≤ fuel) :
    ∃ g1 d1, applicaEffetto fuel c g a d n = Esito.ok (g1, d1) ∧
      (totale g1 d1 = totale g d ∨ totale g1 d1 = totale g d + 1) ∧
      ((∀ p ∈ g, 1 ≤ p.puntiVita) → totale g1 d1 = totale g d) := by
  obtain ⟨⟨g1, d1⟩, hr⟩ := applicaEffetto_termina hn fuel c g a d hid ha hf
  obtain ⟨s, hs, hsr⟩ := applicaEffetto_ok hr
  cases hsr
  have hv : Valido n (statoIniziale c g a d) := ⟨hid, a, rfl, ha⟩
  exact ⟨_, _, hr, ciclo_totale hn fuel _ s hv hg hs⟩

/-- Witness of C19: a Jack played by player 0 of three, who has no life left, adds one life
point to the total. -/
theorem vita_non_distrutta_witness :
    (2 ≤ 3 ∧ idPosizioni esempioTre 3 ∧ 0 < 3 ∧ (∀ p ∈ esempioTre, 0 ≤ p.puntiVita) ∧
      3 + 1 ≤ 4) ∧
    (∃ g1 d1, applicaEffetto 4 ⟨0, 17⟩ esempioTre (0 : Nat) 0 (3 : Nat) = Esito.ok (g1, d1) ∧
      (totale g1 d1 = totale esempioTre 0 ∨ totale g1 d1 = totale esempioTre 0 + 1) ∧
      ((∀ p ∈ esempioTre, 1 ≤ p.puntiVita) → totale g1 d1 = totale esempioTre 0)) ∧
    totale esempioTre 0 = 10 ∧
    applicaEffetto 4 ⟨0, 17⟩ esempioTre 0 0 3
      = Esito.ok ([gioc 0 0 18 12 false, gioc 1 5 12 10 false, gioc 2 6 13 14 true], 0) :=
  ⟨by decide,
   vita_non_distrutta 4 3 0 ⟨0, 17⟩ esempioTre 0 (by decide) (by decide) (by decide)
     (by decide) (by decide),
   by decide, by decide⟩

/-! ## The sweep -/

theorem take_set_succ (l : List Giocatore) (v : Nat) (p : Giocatore) (h : v < l.length) :
    (l.set v p).take (v + 1) = l.take v ++ [p] := by
  induction l generalizing v with
  | nil => simp at h
  | cons x xs ih =>
    cases v with
    | zero => simp
    | succ v =>
      simp only [List.length_cons, Nat.add_lt_add_iff_right] at h
      simp [ih v h]

/-- The first loop of the sweep on an array `A ++ B` whose part `A` has been processed. -/
theorem eliminaCiclo_spec :
    ∀ (resto : Nat) (A B : List Giocatore) (v : Nat) (ult : String) (idx : Int),
      v ≤ A.length → resto ≤ B.length →
      ∃ (A1 : List Giocatore) (ult1 : String) (idx1 : Int),
        eliminaCiclo resto A.length v (A ++ B) ult idx
          = some (A1 ++ B.drop resto,
              v + ((B.take resto).filter (fun p => decide (0 < p.puntiVita))).length,
              ult1, idx1) ∧
        A1.length = A.length + resto ∧
        A1.take (v + ((B.take resto).filter (fun p => decide (0 < p.puntiVita))).length)
          = A.take v ++ (B.take resto).filter (fun p => decide (0 < p.puntiVita)) ∧
        (∀ q, ((B.take resto).filter (fun p => decide (p.puntiVita ≤ 0))).getLast? = some q →
          ult1 = q.nome ∧ idx1 ≠ -1) ∧
        ((B.take resto).filter (fun p => decide (p.puntiVita ≤ 0)) = [] →
          ult1 = ult ∧ idx1 = idx) := by
  intro resto
  induction resto with
  | zero =>
    intro A B v ult idx hv _
    exact ⟨A, ult, idx, by simp [eliminaCiclo], by simp, by simp, by simp, by simp⟩
  | succ resto ih =>
    intro A B v ult idx hv hB
    cases B with
    | nil => simp at hB
    | cons p B1 =>
      simp only [List.length_cons, Nat.add_le_add_iff_right] at hB
      have hget : (A ++ p :: B1)[A.length]? = some p := by
        rw [List.getElem?_append_right (le_refl _)]; simp
      by_cases hp : 0 < p.puntiVita
      · have hnd : ¬ p.puntiVita ≤ 0 := by omega
        have hvl : v < (A ++ p :: B1).length := by
          simp only [List.length_append, List.length_cons]; omega
        have hset : (A ++ p :: B1).set v p = (A ++ [p]).set v p ++ B1 := by
          rw [show A ++ p :: B1 = (A ++ [p]) ++ B1 by simp,
            List.set_append_left _ _ (by simp; omega)]
        obtain ⟨A1, ult1, idx1, h1, h2, h3, h4, h5⟩ :=
          ih ((A ++ [p]).set v p) B1 (v + 1) ult idx (by simp; omega) hB
        refine ⟨A1, ult1, idx1, ?_, ?_, ?_, ?_, ?_⟩
        · simp only [eliminaCiclo, hget, hp, gt_iff_lt, if_true, hvl, hset]
          simp only [List.length_set, List.length_append, List.length_cons, List.length_nil,
            Nat.zero_add] at h1
          rw [h1]
          simp [hp, Nat.add_assoc, Nat.add_comm 1]
        · simp only [List.length_set, List.length_append, List.length_cons, List.length_nil]
            at h2
          omega
        · rw [take_set_succ _ _ _ (by simp; omega), List.take_append_of_le_length hv] at h3
          simp only [List.take_succ_cons, List.filter_cons, hp, decide_True, if_true,
            List.length_cons]
          rw [show v + (((List.take resto B1).filter
              (fun p => decide (0 < p.puntiVita))).length + 1)
            = v + 1 + ((List.take resto B1).filter
              (fun p => decide (0 < p.puntiVita))).length by omega, h3]
          simp
        · simpa [List.filter_cons, hnd] using h4
        · simpa [List.filter_cons, hnd] using h5
      · have hnd : p.puntiVita ≤ 0 := by omega
        obtain ⟨A1, ult1, idx1, h1, h2, h3, h4, h5⟩ :=
          ih (A ++ [p]) B1 v p.nome (A.length : Int) (by simp; omega) hB
        refine ⟨A1, ult1, idx1, ?_, ?_, ?_, ?_, ?_⟩
        · simp only [eliminaCiclo, hget, hp, gt_iff_lt, if_false]
          simp only [List.length_append, List.length_cons, List.length_nil, Nat.zero_add,
            List.append_assoc, List.singleton_append] at h1
          rw [h1]
          simp [hp]
        · simp only [List.length_append, List.length_cons, List.length_nil] at h2
          omega
        · rw [List.take_append_of_le_length hv] at h3
          simpa [List.filter_cons, hp] using h3
        · intro q hq
          simp only [List.take_succ_cons, List.filter_cons, hnd, decide_True, if_true] at hq
          cases hl : (List.take resto B1).filter (fun p => decide (p.puntiVita ≤ 0)) with
          | nil =>
            rw [hl] at hq
            simp only [List.getLast?_singleton, Option.some.injEq] at hq
            subst hq
            have := h5 hl
            exact ⟨this.1, by rw [this.2]; omega⟩
          | cons x xs =>
            rw [hl] at hq h4
            rw [List.getLast?_cons_cons] at hq
            exact h4 q hq
        · intro hnil
          simp [List.filter_cons, hnd] at hnil

theorem assegnaId_spec :
    ∀ (resto i : Nat) (g : List Giocatore), i + resto ≤ g.length →
      ∃ g2, assegnaId resto i g = some g2 ∧ g2.length = g.length ∧
        ∀ k : Nat, g2[k]? = if i ≤ k ∧ k < i + resto then
            (g[k]?).map (fun p => { p with id := (k : Int) }) else g[k]? := by
  intro resto
  induction resto with
  | zero =>
    intro i g _
    refine ⟨g, rfl, rfl, ?_⟩
    intro k
    rw [if_neg (by omega)]
  | succ resto ih =>
    intro i g h
    have hi : i < g.length := by omega
    obtain ⟨g2, h1, h2, h3⟩ := ih (i + 1) (g.set i { g[i] with id := (i : Int) })
      (by simp only [List.length_set]; omega)
    refine ⟨g2, ?_, ?_, ?_⟩
    · simp only [assegnaId, List.getElem?_eq_getElem hi]
      exact h1
    · simpa using h2
    · intro k
      rw [h3 k]
      by_cases hki : i = k
      · subst hki
        rw [if_neg (by omega), if_pos (by omega), List.getElem?_set_self hi,
          List.getElem?_eq_getElem hi]
        rfl
      · rw [List.getElem?_set_ne hki]
        by_cases hk : i + 1 ≤ k ∧ k < i + 1 + resto
        · rw [if_pos hk, if_pos (by omega)]
        · rw [if_neg hk, if_neg (by omega)]

/-- Everything the sweep does on an array whose first `n` positions are the roster. -/
theorem eliminaGiocatori_spec (g : List Giocatore) (n : Nat) (ult : String)
    (hn : n ≤ g.length) :
    ∃ r, eliminaGiocatori g n ult = some r ∧
      r.n = ((sopravvissuti g n).length : Int) ∧
      r.giocatori.length = g.length ∧
      (∀ i : Nat, i < (sopravvissuti g n).length →
        r.giocatori[i]? = ((sopravvissuti g n)[i]?).map (fun p => { p with id := (i : Int) })) ∧
      r.ritorno = (if (sopravvissuti g n).length = 0 ∧ eliminati g n ≠ [] then 1 else 0) ∧
      (∀ q, (eliminati g n).getLast? = some q → r.ultimoEliminato = q.nome) ∧
      (eliminati g n = [] → r.ultimoEliminato = ult) := by
  obtain ⟨A1, ult1, idx1, h1, h2, h3, h4, h5⟩ := eliminaCiclo_spec n [] g 0 ult (-1)
    (by simp) hn
  simp only [List.length_nil, List.nil_append, Nat.zero_add, List.take_zero] at h1 h2 h3
  have hk : (sopravvissuti g n).length ≤ n := by
    unfold sopravvissuti
    exact le_trans (List.length_filter_le _ _) (by simp)
  obtain ⟨g2, ha1, ha2, ha3⟩ := assegnaId_spec (sopravvissuti g n).length 0 (A1 ++ g.drop n)
    (by simp only [List.length_append, List.length_drop]; omega)
  refine ⟨Eliminazione.mk g2 ((sopravvissuti g n).length : Int) ult1
      (if (sopravvissuti g n).length = 0 ∧ idx1 ≠ -1 then 1 else 0),
    ?_, rfl, ?_, ?_, ?_, ?_, ?_⟩
  · simp only [eliminaGiocatori, Int.toNat_ofNat, h1]
    unfold sopravvissuti at ha1
    simp only [ha1]
    rfl
  · rw [ha2]; simp only [List.length_append, List.length_drop]; omega
  · intro i hi
    simp only
    rw [ha3 i, if_pos (by omega), List.getElem?_append_left (by omega)]
    have : A1[i]? = (sopravvissuti g n)[i]? := by
      unfold sopravvissuti at hi ⊢
      rw [← h3, List.getElem?_take_of_lt hi]
    rw [this]
  · simp only
    by_cases he : eliminati g n = []
    · have := (h5 he).2
      simp [he, this]
    · obtain ⟨q, hq⟩ : ∃ q, (eliminati g n).getLast? = some q := by
        cases hl : (eliminati g n).getLast? with
        | none => exact absurd (List.getLast?_eq_none_iff.mp hl) he
        | some q => exact ⟨q, rfl⟩
      have := (h4 q hq).2
      simp [he, this]
  · intro q hq
    exact (h4 q hq).1
  · intro he
    exact (h5 he).1

/-- C13: on an array whose first `n` positions are the roster, `eliminaGiocatori` returns
with `*n` set to the number `k` of players with life above 0, and position `i < k` holds the
`i`-th such player in roster order, with name, life and hand as they were and with id `i`. -/
theorem eliminaGiocatori_contrae (g : List Giocatore) (n : Nat) (ult : String)
    (hn : n ≤ g.length) :
    ∃ r, eliminaGiocatori g n ult = some r ∧
      r.n = ((sopravvissuti g n).length : Int) ∧
      r.giocatori.length = g.length ∧
      ∀ i : Nat, i < (sopravvissuti g n).length →
        r.giocatori[i]?
          = ((sopravvissuti g n)[i]?).map (fun p => { p with id := (i : Int) }) := by
  obtain ⟨r, h1, h2, h3, h4, -⟩ := eliminaGiocatori_spec g n ult hn
  exact ⟨r, h1, h2, h3, h4⟩

/-- C14: `eliminaGiocatori` returns 1 exactly when the roster is non-empty and every player
has life 0 or less, and 0 otherwise; if some player has life 0 or less, `ultimoEliminato`
receives the name of the last such player in roster order, and if none has, it keeps its
previous contents. -/
theorem eliminaGiocatori_ritorno (g : List Giocatore) (n : Nat) (ult : String)
    (hn : n ≤ g.length) :
    ∃ r, eliminaGiocatori g n ult = some r ∧
      (r.ritorno = 1 ↔ (0 < n ∧ ∀ p ∈ g.take n, p.puntiVita ≤ 0)) ∧
      (r.ritorno = 0 ∨ r.ritorno = 1) ∧
      (∀ q, (eliminati g n).getLast? = some q → r.ultimoEliminato = q.nome) ∧
      (eliminati g n = [] → r.ultimoEliminato = ult) := by
  obtain ⟨r, h1, -, -, -, h5, h6, h7⟩ := eliminaGiocatori_spec g n ult hn
  refine ⟨r, h1, ?_, ?_, h6, h7⟩
  · rw [h5]
    constructor
    · intro h
      split at h
      · next hc =>
        obtain ⟨hs, he⟩ := hc
        have hall : ∀ p ∈ g.take n, p.puntiVita ≤ 0 := by
          intro p hp
          by_contra hpos
          have : p ∈ sopravvissuti g n := by
            unfold sopravvissuti
            exact List.mem_filter.mpr ⟨hp, by simp; omega⟩
          rw [List.length_eq_zero.mp hs] at this
          simp at this
        refine ⟨?_, hall⟩
        rcases Nat.eq_zero_or_pos n with h0 | h0
        · subst h0; simp [eliminati] at he
        · exact h0
      · omega
    · intro ⟨h0, hall⟩
      have hs : (sopravvissuti g n).length = 0 := by
        rw [List.length_eq_zero]
        unfold sopravvissuti
        rw [List.filter_eq_nil_iff]
        intro p hp
        have := hall p hp
        simp; omega
      have he : eliminati g n ≠ [] := by
        unfold eliminati
        intro hnil
        rw [List.filter_eq_nil_iff] at hnil
        have hlen : 0 < (g.take n).length := by simp; omega
        have hmem := List.getElem_mem hlen
        have := hnil _ hmem
        have := hall _ hmem
        simp_all
      rw [if_pos ⟨hs, he⟩]
  · rw [h5]; split <;> simp

/-- Witness of C13: of three players only the second survives and becomes player 0. -/
theorem eliminaGiocatori_contrae_witness :
    (3 ≤ esempioSweep.length) ∧
    ∃ r, eliminaGiocatori esempioSweep (3 : Nat) "" = some r ∧
      r.n = ((sopravvissuti esempioSweep 3).length : Int) ∧
      r.giocatori.length = esempioSweep.length ∧
      ∀ i : Nat, i < (sopravvissuti esempioSweep 3).length →
        r.giocatori[i]?
          = ((sopravvissuti esempioSweep 3)[i]?).map (fun p => { p with id := (i : Int) }) :=
  ⟨by decide, eliminaGiocatori_contrae esempioSweep 3 "" (by decide)⟩

/-- Witness of C14: on the same roster the name left in the buffer is that of player 2. -/
theorem eliminaGiocatori_ritorno_witness :
    (3 ≤ esempioSweep.length) ∧
    (∃ r, eliminaGiocatori esempioSweep (3 : Nat) "" = some r ∧
      (r.ritorno = 1 ↔ (0 < 3 ∧ ∀ p ∈ esempioSweep.take 3, p.puntiVita ≤ 0)) ∧
      (r.ritorno = 0 ∨ r.ritorno = 1) ∧
      (∀ q, (eliminati esempioSweep 3).getLast? = some q → r.ultimoEliminato = q.nome) ∧
      (eliminati esempioSweep 3 = [] → r.ultimoEliminato = "")) ∧
    eliminaGiocatori esempioSweep 3 ""
      = some { giocatori := [{ gioc 0 3 13 14 true with nome := "Bea" },
                  { gioc 1 3 13 14 true with nome := "Bea" },
                  { gioc 2 0 15 16 false with nome := "Ciro" }],
               n := 1, ultimoEliminato := "Ciro", ritorno := 0 } :=
  ⟨by decide, eliminaGiocatori_ritorno esempioSweep 3 "" (by decide), by decide⟩

/-! ## The order of the turns -/

theorem prossimoTurno_nat {n u : Nat} (hu : u < n) :
    prossimoTurno (n : Int) (u : Int) = (((u + 1) % n : Nat) : Int) := by
  unfold prossimoTurno
  rcases Nat.lt_or_ge (u + 1) n with h | h
  · rw [Nat.mod_eq_of_lt h, if_neg (by omega)]; push_cast; rfl
  · have : u + 1 = n := by omega
    rw [this, Nat.mod_self, if_pos (by omega)]; rfl

theorem visite_eq {n : Nat} (hn : 0 < n) :
    ∀ (resto u : Nat), u < n →
      visite (n : Int) resto (u : Int)
        = (List.range resto).map (fun t => (((u + t) % n : Nat) : Int)) := by
  intro resto
  induction resto with
  | zero => intro u _; rfl
  | succ resto ih =>
    intro u hu
    rw [List.range_succ_eq_map, List.map_cons, List.map_map]
    simp only [visite, prossimoTurno_nat hu]
    rw [ih ((u + 1) % n) (Nat.mod_lt _ hn)]
    congr 1
    · rw [Nat.add_zero, Nat.mod_eq_of_lt hu]
    · apply List.map_congr_left
      intro t _
      simp only [Function.comp, Nat.succ_eq_add_one]
      rw [Nat.mod_add_mod, Nat.add_assoc, Nat.add_comm 1 t]

theorem turni_visite (fuel : Nat) (vivi : Int) (risposte : Nat → Bool × Bool) :
    ∀ (resto t : Nat) (turno : Int) (g : List Giocatore) (d : Int),
      turni fuel vivi risposte resto t turno g d
        = turniInOrdine fuel vivi risposte (visite vivi resto turno) t g d := by
  intro resto
  induction resto with
  | zero => intro t turno g d; rfl
  | succ resto ih =>
    intro t turno g d
    simp only [turni, visite, turniInOrdine]
    split <;> simp_all

theorem distribuisci_visite (mazzo : List Carta) (vivi : Int) :
    ∀ (resto : Nat) (turno nCarte : Int) (g : List Giocatore),
      distribuisci mazzo vivi resto turno nCarte g
        = distribuisciInOrdine mazzo (visite vivi resto turno) nCarte g := by
  intro resto
  induction resto with
  | zero => intro turno nCarte g; rfl
  | succ resto ih =>
    intro turno nCarte g
    simp only [distribuisci, visite, distribuisciInOrdine]
    split
    · rfl
    · split
      · rfl
      · exact ih _ _ _

theorem ruota_inj {n primo t1 t2 : Nat} (h1 : t1 < n) (h2 : t2 < n)
    (h : (primo + t1) % n = (primo + t2) % n) : t1 = t2 := by
  have hm : primo + t1 ≡ primo + t2 [MOD n] := h
  exact (Nat.ModEq.add_left_cancel' primo hm).eq_of_lt_of_lt h1 h2

theorem ruota_sur {n primo i : Nat} (hp : primo < n) (hi : i < n) :
    ∃ t, t < n ∧ (primo + t) % n = i := by
  rcases Nat.lt_or_ge i primo with h | h
  · refine ⟨i + n - primo, by omega, ?_⟩
    have : primo + (i + n - primo) = i + n := by omega
    rw [this, Nat.add_mod_right, Nat.mod_eq_of_lt hi]
  · refine ⟨i - primo, by omega, ?_⟩
    have : primo + (i - primo) = i := by omega
    rw [this, Nat.mod_eq_of_lt hi]

theorem ordine_nodup (n primo : Nat) :
    ((List.range n).map (fun t => (primo + t) % n)).Nodup := by
  apply List.Nodup.map_on _ (List.nodup_range n)
  intro t1 h1 t2 h2 h
  exact ruota_inj (List.mem_range.mp h1) (List.mem_range.mp h2) h

/-- C17: for `n ≥ 1` active players and a first index `primo < n`, the values taken by
`turno` in a loop of `n` iterations are `(primo + t) mod n` for `t = 0..n-1` in that order;
the turn loop is `svolgiFase` run for these indices in this order, the dealing loop is
`daiDueCarte` run for the same indices in the same order, and every index below `n` occurs
exactly once among them. -/
theorem ordine_dei_turni (n primo : Nat) (hn : 1 ≤ n) (hp : primo < n) :
    visite (n : Int) n (primo : Int)
      = (List.range n).map (fun t => (((primo + t) % n : Nat) : Int)) ∧
    (∀ (fuel : Nat) (risposte : Nat → Bool × Bool) (g : List Giocatore) (d : Int),
      turni fuel n risposte n 0 primo g d
        = turniInOrdine fuel n risposte
            ((List.range n).map (fun t => (((primo + t) % n : Nat) : Int))) 0 g d) ∧
    (∀ (mazzo : List Carta) (nCarte : Int) (g : List Giocatore),
      distribuisci mazzo n n primo nCarte g
        = distribuisciInOrdine mazzo
            ((List.range n).map (fun t => (((primo + t) % n : Nat) : Int))) nCarte g) ∧
    (∀ i : Nat, i < n →
      ((List.range n).map (fun t => (((primo + t) % n : Nat) : Int))).count (i : Int) = 1) := by
  have hv := visite_eq (n := n) (by omega) n primo hp
  refine ⟨hv, ?_, ?_, ?_⟩
  · intro fuel risposte g d
    rw [turni_visite, hv]
  · intro mazzo nCarte g
    rw [distribuisci_visite, hv]
  · intro i hi
    have hmap : (List.range n).map (fun t => (((primo + t) % n : Nat) : Int))
        = ((List.range n).map (fun t => (primo + t) % n)).map (fun k : Nat => (k : Int)) := by
      rw [List.map_map]; rfl
    rw [hmap]
    apply List.count_eq_one_of_mem
    · exact (ordine_nodup n primo).map (fun a b h => by exact_mod_cast h)
    · obtain ⟨t, ht, hti⟩ := ruota_sur hp hi
      exact List.mem_map.mpr ⟨i, List.mem_map.mpr ⟨t, List.mem_range.mpr ht, hti⟩, rfl⟩

/-- Witness of C17: three players, the second one starts. -/
theorem ordine_dei_turni_witness :
    (1 ≤ 3 ∧ 1 < 3) ∧
    visite ((3 : Nat) : Int) 3 ((1 : Nat) : Int)
      = (List.range 3).map (fun t => (((1 + t) % 3 : Nat) : Int)) ∧
    visite 3 3 1 = [1, 2, 0] :=
  ⟨by decide, (ordine_dei_turni 3 1 (by decide) (by decide)).1, by decide⟩

/-! ## Dealing -/

theorem leggiCarta_natCast (mazzo : List Carta) (a : Nat) :
    leggiCarta mazzo (a : Int) = mazzo[a]? := by
  simp [leggiCarta]

theorem daiDueCarte_nat (p : Giocatore) (mazzo : List Carta) (c : Nat) (c1 c2 : Carta)
    (hc : 2 ≤ c) (h1 : mazzo[c - 1]? = some c1) (h2 : mazzo[c - 2]? = some c2) :
    daiDueCarte p mazzo (c : Int) = some (conCarte p c1 c2, ((c - 2 : Nat) : Int)) := by
  have e1 : (c : Int) - 1 = ((c - 1 : Nat) : Int) := by omega
  have e2 : (c : Int) - 2 = ((c - 2 : Nat) : Int) := by omega
  unfold daiDueCarte
  rw [e1, e2, leggiCarta_natCast, leggiCarta_natCast, h1, h2]
  rfl

/-- Dealing to the positions of a list without repetitions: the hands of these positions
come from the top of the deck, two cards each, and the other positions are untouched. -/
theorem distribuisciInOrdine_spec (mazzo : List Carta) :
    ∀ (L : List Nat) (c : Nat) (g : List Giocatore), L.Nodup → (∀ i ∈ L, i < g.length) →
      2 * L.length ≤ c → c ≤ mazzo.length →
      ∃ g1, distribuisciInOrdine mazzo (L.map (fun k : Nat => (k : Int))) (c : Int) g
          = some (g1, ((c - 2 * L.length : Nat) : Int)) ∧
        g1.length = g.length ∧
        (∀ t : Nat, t < L.length → ∃ i p c1 c2, L[t]? = some i ∧ g[i]? = some p ∧
          mazzo[c - 1 - 2 * t]? = some c1 ∧ mazzo[c - 2 - 2 * t]? = some c2 ∧
          g1[i]? = some (conCarte p c1 c2)) ∧
        (∀ k : Nat, k ∉ L → g1[k]? = g[k]?) := by
  intro L
  induction L with
  | nil =>
    intro c g _ _ _ _
    exact ⟨g, by simp [distribuisciInOrdine], rfl, by simp, by simp⟩
  | cons i L ih =>
    intro c g hnd hlt hc hm
    simp only [List.length_cons] at hc
    have hi : i < g.length := hlt i (List.mem_cons_self _ _)
    obtain ⟨hiL, hndL⟩ := List.nodup_cons.mp hnd
    obtain ⟨c1, h1⟩ : ∃ c1, mazzo[c - 1]? = some c1 :=
      ⟨_, List.getElem?_eq_getElem (by omega)⟩
    obtain ⟨c2, h2⟩ : ∃ c2, mazzo[c - 2]? = some c2 :=
      ⟨_, List.getElem?_eq_getElem (by omega)⟩
    obtain ⟨g1, hd, hlen, hhand, hother⟩ := ih (c - 2) (g.set i (conCarte g[i] c1 c2)) hndL
      (by intro k hk; simp only [List.length_set]; exact hlt k (List.mem_cons_of_mem _ hk))
      (by omega) (by omega)
    refine ⟨g1, ?_, ?_, ?_, ?_⟩
    · simp only [List.map_cons, distribuisciInOrdine, leggi_natCast,
        List.getElem?_eq_getElem hi, daiDueCarte_nat _ _ _ _ _ (by omega : 2 ≤ c) h1 h2,
        Int.toNat_ofNat]
      rw [hd]
      congr 2
      simp only [List.length_cons]
      omega
    · simpa using hlen
    · intro t ht
      cases t with
      | zero =>
        refine ⟨i, g[i], c1, c2, by simp, List.getElem?_eq_getElem hi, h1, h2, ?_⟩
        rw [hother i hiL, List.getElem?_set_self hi]
      | succ t =>
        simp only [List.length_cons, Nat.add_lt_add_iff_right] at ht
        obtain ⟨k, p, c1, c2, hk, hp, hc1, hc2, hg1⟩ := hhand t ht
        have hne : i ≠ k := by
          intro h
          subst h
          exact hiL (List.getElem?_mem hk)
        rw [List.getElem?_set_ne hne] at hp
        refine ⟨k, p, c1, c2, by simpa using hk, hp, ?_, ?_, hg1⟩
        · rw [← hc1]; congr 1; omega
        · rw [← hc2]; congr 1; omega
    · intro k hk
      have hki : i ≠ k := fun h => hk (h ▸ List.mem_cons_self _ _)
      rw [hother k (fun h => hk (List.mem_cons_of_mem _ h)), List.getElem?_set_ne hki]

theorem nodup_getElem_inj {l : List Carta} (h : l.Nodup) {a b : Nat} {x : Carta}
    (ha : l[a]? = some x) (hb : l[b]? = some x) : a = b := by
  obtain ⟨hal, hae⟩ := List.getElem?_eq_some.mp ha
  obtain ⟨hbl, hbe⟩ := List.getElem?_eq_some.mp hb
  exact (List.Nodup.getElem_inj_iff h).mp (hae.trans hbe.symm)

/-- C12: for `2 ≤ n ≤ 20` active players, a first index `primo < n` and a deck that is a
permutation of the canonical one, the dealing loop returns with `nCarte = 40 - 2n`; the
player visited in iteration `t` receives the deck entries `39 - 2t` and `38 - 2t`, which
are inside the deck; positions from `n` on are untouched; the two cards of a hand differ, and
the hands of two different players have no card in common. -/
theorem distribuzione (n primo : Nat) (g : List Giocatore) (mazzo : List Carta)
    (hn2 : 2 ≤ n) (hn20 : n ≤ 20) (hp : primo < n) (hg : n ≤ g.length)
    (hm : mazzo.Perm mazzoCanonico) :
    ∃ g1, distribuisci mazzo n n primo 40 g = some (g1, 40 - 2 * (n : Int)) ∧
      g1.length = g.length ∧
      (∀ t : Nat, t < n → ∃ p c1 c2, g[(primo + t) % n]? = some p ∧
        mazzo[39 - 2 * t]? = some c1 ∧ mazzo[38 - 2 * t]? = some c2 ∧
        g1[(primo + t) % n]? = some (conCarte p c1 c2)) ∧
      (∀ k : Nat, n ≤ k → g1[k]? = g[k]?) ∧
      (∀ (i j : Nat) (P Q : Giocatore), i < n → j < n → g1[i]? = some P → g1[j]? = some Q →
        P.mano.carta1 ≠ P.mano.carta2 ∧
        (i ≠ j → P.mano.carta1 ≠ Q.mano.carta1 ∧ P.mano.carta1 ≠ Q.mano.carta2 ∧
          P.mano.carta2 ≠ Q.mano.carta1 ∧ P.mano.carta2 ≠ Q.mano.carta2)) := by
  have hlen : mazzo.length = 40 := by rw [hm.length_eq]; decide
  have hnd : mazzo.Nodup := hm.nodup_iff.mpr mazzoCanonico_nodup
  have hL : ((List.range n).map (fun t => (primo + t) % n)).length = n := by simp
  have hmap : (List.range n).map (fun t => (((primo + t) % n : Nat) : Int))
      = ((List.range n).map (fun t => (primo + t) % n)).map (fun k : Nat => (k : Int)) := by
    rw [List.map_map]; rfl
  obtain ⟨g1, hd, hl1, hhand, hother⟩ := distribuisciInOrdine_spec mazzo
    ((List.range n).map (fun t => (primo + t) % n)) 40 g (ordine_nodup n primo)
    (by
      intro i hi
      obtain ⟨t, -, rfl⟩ := List.mem_map.mp hi
      exact lt_of_lt_of_le (Nat.mod_lt _ (by omega)) hg)
    (by rw [hL]; omega) (by omega)
  rw [hL] at hd hhand
  have hmani : ∀ t : Nat, t < n → ∃ p c1 c2, g[(primo + t) % n]? = some p ∧
      mazzo[39 - 2 * t]? = some c1 ∧ mazzo[38 - 2 * t]? = some c2 ∧
      g1[(primo + t) % n]? = some (conCarte p c1 c2) := by
    intro t ht
    obtain ⟨i, p, c1, c2, hi, hgp, hc1, hc2, hg1⟩ := hhand t ht
    have hi2 : i = (primo + t) % n := by
      rw [List.getElem?_map, List.getElem?_range ht] at hi
      simpa using hi.symm
    subst hi2
    exact ⟨p, c1, c2, hgp, hc1, hc2, hg1⟩
  refine ⟨g1, ?_, hl1, hmani, ?_, ?_⟩
  · rw [distribuisci_visite, visite_eq (by omega) n primo hp, hmap]
    have := hd
    simp only [Nat.cast_ofNat] at this
    rw [this]
    congr 2
    omega
  · intro k hk
    apply hother
    intro hmem
    obtain ⟨t, -, rfl⟩ := List.mem_map.mp hmem
    have := Nat.mod_lt (primo + t) (by omega : 0 < n)
    omega
  · intro i j P Q hi hj hP hQ
    obtain ⟨ti, hti, rfl⟩ := ruota_sur hp hi
    obtain ⟨tj, htj, rfl⟩ := ruota_sur hp hj
    obtain ⟨p, a1, a2, -, ha1, ha2, hgi⟩ := hmani ti hti
    obtain ⟨q, b1, b2, -, hb1, hb2, hgj⟩ := hmani tj htj
    rw [hgi] at hP
    rw [hgj] at hQ
    cases hP
    cases hQ
    simp only [conCarte]
    constructor
    · intro h
      subst h
      have := nodup_getElem_inj hnd ha1 ha2
      omega
    · intro hne
      have htne : ti ≠ tj := fun h => hne (by rw [h])
      refine ⟨?_, ?_, ?_, ?_⟩ <;> intro h <;> subst h
      · have := nodup_getElem_inj hnd ha1 hb1; omega
      · have := nodup_getElem_inj hnd ha1 hb2; omega
      · have := nodup_getElem_inj hnd ha2 hb1; omega
      · have := nodup_getElem_inj hnd ha2 hb2; omega

/-- Witness of C12: three players of `esempioTre`, player 1 first, the canonical deck. -/
theorem distribuzione_witness :
    (2 ≤ 3 ∧ 3 ≤ 20 ∧ 1 < 3 ∧ 3 ≤ esempioTre.length ∧ mazzoCanonico.Perm mazzoCanonico) ∧
    ∃ g1, distribuisci mazzoCanonico (3 : Nat) 3 (1 : Nat) 40 esempioTre
        = some (g1, 40 - 2 * ((3 : Nat) : Int)) ∧
      g1.length = esempioTre.length :=
  ⟨⟨by decide, by decide, by decide, by decide, List.Perm.refl _⟩,
   (distribuzione 3 1 esempioTre mazzoCanonico (by decide) (by decide) (by decide)
      (by decide) (List.Perm.refl _)).elim (fun g1 h => ⟨g1, h.1, h.2.1⟩)⟩

/-- The dealing of the witness of C12, evaluated: player 1 gets the King and the Queen of
suit 3, player 2 the Jack and the Seven, player 0 the Six and the Five, and 34 cards are
left. -/
theorem distribuzione_esempio :
    distribuisci mazzoCanonico 3 3 1 40 esempioTre
      = some ([conCarte (gioc 0 0 18 12 false) ⟨3, 15⟩ ⟨3, 14⟩,
               conCarte (gioc 1 5 12 10 false) ⟨3, 19⟩ ⟨3, 18⟩,
               conCarte (gioc 2 5 13 14 true) ⟨3, 17⟩ ⟨3, 16⟩], 34) := by
  decide

/-! ## The end of a round -/

theorem mainCiclo_fine (fuel : Nat) (ingressi : Nat → (Nat → Nat) × (Nat → Bool × Bool))
    (fasi j : Nat) (p : Partita) (q : Giocatore) (hv : p.vivi ≤ 1)
    (hq : p.giocatori[0]? = some q) : mainCiclo fuel ingressi fasi j p = Esito.ok q.nome := by
  have hl : leggi p.giocatori 0 = some q := by
    have := leggi_natCast p.giocatori 0
    simpa [hq] using this
  cases fasi <;> simp [mainCiclo, not_lt.mpr hv, hl]

theorem mainCiclo_gioca (fuel : Nat) (ingressi : Nat → (Nat → Nat) × (Nat → Bool × Bool))
    (fasi j : Nat) (p : Partita) (hv : 1 < p.vivi) :
    mainCiclo fuel ingressi (fasi + 1) j p
      = seguito (fun p1 => mainCiclo fuel ingressi fasi (j + 1) p1)
          (unaFase fuel (ingressi j).1 (ingressi j).2 p) := by
  simp [mainCiclo, hv]

/-- C15: the state `p` of `main` after the turn loop of a round played with `n ≥ 2` active
players.  If no player has life above 0, `main` returns from the loop with, as winner, the
name of the last player of the roster, which is the name the sweep recorded last.  If
exactly one player `q` has life above 0, the loop body ends, the loop test fails and the
winner declared after the loop, `giocatori[0].nome`, is the name of `q`.  If two or more
players have life above 0, the loop body ends with `fase` increased by 1 and the loop test
holds, so the next iteration of the loop body is run. -/
theorem esito_della_fase (p : Partita) (n : Nat) (hn : 2 ≤ n) (hv : p.vivi = (n : Int))
    (hlen : n ≤ p.giocatori.length) :
    ((sopravvissuti p.giocatori n).length = 0 →
      ∃ q, (p.giocatori.take n).getLast? = some q ∧ (eliminati p.giocatori n).getLast? = some q ∧
        chiudiFase p = some (Seguito.vittoria q.nome)) ∧
    (∀ q, sopravvissuti p.giocatori n = [q] →
      ∃ p1, chiudiFase p = some (Seguito.fase p1) ∧ p1.vivi = 1 ∧
        ∀ fuel ingressi fasi j, mainCiclo fuel ingressi fasi j p1 = Esito.ok q.nome) ∧
    (2 ≤ (sopravvissuti p.giocatori n).length →
      ∃ p1, chiudiFase p = some (Seguito.fase p1) ∧ p1.fase = p.fase + 1 ∧
        p1.vivi = ((sopravvissuti p.giocatori n).length : Int) ∧ 1 < p1.vivi ∧
        ∀ fuel ingressi fasi j, mainCiclo fuel ingressi (fasi + 1) j p1
          = seguito (fun p2 => mainCiclo fuel ingressi fasi (j + 1) p2)
              (unaFase fuel (ingressi j).1 (ingressi j).2 p1)) := by
  obtain ⟨r, hr, hrn, -, hpos, hrit, hult, -⟩ :=
    eliminaGiocatori_spec p.giocatori n p.ultimoEliminato hlen
  refine ⟨?_, ?_, ?_⟩
  · intro h0
    have hall : eliminati p.giocatori n = p.giocatori.take n := by
      unfold eliminati
      rw [List.filter_eq_self]
      intro x hx
      by_contra hpos
      have : x ∈ sopravvissuti p.giocatori n := by
        unfold sopravvissuti
        exact List.mem_filter.mpr ⟨hx, by simp at hpos ⊢; omega⟩
      rw [List.length_eq_zero.mp h0] at this
      simp at this
    have hne : p.giocatori.take n ≠ [] := by
      intro h
      have := congrArg List.length h
      simp only [List.length_take, List.length_nil] at this
      omega
    obtain ⟨q, hq⟩ : ∃ q, (p.giocatori.take n).getLast? = some q := by
      cases hl : (p.giocatori.take n).getLast? with
      | none => exact absurd (List.getLast?_eq_none_iff.mp hl) hne
      | some q => exact ⟨q, rfl⟩
    refine ⟨q, hq, by rw [hall]; exact hq, ?_⟩
    have hr1 : r.ritorno = 1 := by
      rw [hrit, if_pos ⟨h0, by rw [hall]; exact hne⟩]
    simp only [chiudiFase, hv, hr, hr1]
    rw [hult q (by rw [hall]; exact hq)]
    simp
  · intro q hq
    have hr0 : r.ritorno = 0 := by
      rw [hrit, if_neg (by rw [hq]; simp)]
    have hg0 : r.giocatori[0]? = some { q with id := ((0 : Nat) : Int) } := by
      rw [hpos 0 (by rw [hq]; simp), hq]; rfl
    have hrn1 : r.n = 1 := by rw [hrn, hq]; rfl
    refine ⟨_, by simp only [chiudiFase, hv, hr, hr0]; rfl, hrn1, ?_⟩
    intro fuel ingressi fasi j
    exact mainCiclo_fine fuel ingressi fasi j _ { q with id := ((0 : Nat) : Int) }
      (by simp only [hrn1]; omega) hg0
  · intro h2
    have hr0 : r.ritorno = 0 := by
      rw [hrit, if_neg (by omega)]
    have hgt : 1 < r.n := by rw [hrn]; omega
    refine ⟨_, by simp only [chiudiFase, hv, hr, hr0]; rfl, rfl, hrn, hgt, ?_⟩
    intro fuel ingressi fasi j
    exact mainCiclo_gioca fuel ingressi fasi j _ hgt

/-- Witness of C15: of three players only "Bea" has life left; the loop ends and she is the
winner. -/
theorem esito_della_fase_witness :
    (2 ≤ 3 ∧ partitaSweep.vivi = ((3 : Nat) : Int) ∧ 3 ≤ partitaSweep.giocatori.length ∧
      sopravvissuti partitaSweep.giocatori 3 = [{ gioc 1 3 13 14 true with nome := "Bea" }]) ∧
    ∃ p1, chiudiFase partitaSweep = some (Seguito.fase p1) ∧ p1.vivi = 1 ∧
      ∀ fuel ingressi fasi j, mainCiclo fuel ingressi fasi j p1 = Esito.ok "Bea" :=
  ⟨by decide,
   (esito_della_fase partitaSweep 3 (by decide) (by decide) (by decide)).2.1
     { gioc 1 3 13 14 true with nome := "Bea" } (by decide)⟩

/-- Scenario D of the spec, evaluated: both players of a round of two end with life 0, the
sweep records "Ada" and then "Ciro", and `main` declares "Ciro" the winner. -/
theorem tutti_eliminati_esempio :
    chiudiFase partitaTuttiMorti = some (Seguito.vittoria "Ciro") := by
  decide

/-! ## The shuffle as a function of the swap choices -/

theorem scambia_eq {m m1 : List Carta} {i j : Nat} (h : scambia m i j = some m1) :
    ∃ ci cj, m[i]? = some ci ∧ m[j]? = some cj ∧ m1 = (m.set i cj).set j ci := by
  unfold scambia at h
  split at h
  · next ci cj hi hj => cases h; exact ⟨ci, cj, hi, hj, rfl⟩
  · cases h

theorem scambia_fuori {m m1 : List Carta} {i j : Nat} (h : scambia m i j = some m1) (k : Nat)
    (hi : k ≠ i) (hj : k ≠ j) : m1[k]? = m[k]? := by
  obtain ⟨ci, cj, -, -, rfl⟩ := scambia_eq h
  rw [List.getElem?_set_ne (fun e => hj e.symm), List.getElem?_set_ne (fun e => hi e.symm)]

theorem scambia_in {m m1 : List Carta} {i j : Nat} (h : scambia m i j = some m1) :
    m1[i]? = m[j]? := by
  obtain ⟨ci, cj, hci, hcj, rfl⟩ := scambia_eq h
  have hil : i < m.length := (List.getElem?_eq_some.mp hci).1
  by_cases hij : j = i
  · subst hij
    rw [List.getElem?_set_self (by simpa using hil), hci]
  · rw [List.getElem?_set_ne hij, List.getElem?_set_self hil, hcj]

theorem mescolaCiclo_sopra (rnd : Nat → Nat) :
    ∀ (i t : Nat) (m m1 : List Carta), mescolaCiclo rnd i t m = some m1 →
      ∀ k, i < k → m1[k]? = m[k]? := by
  intro i
  induction i with
  | zero => intro t m m1 h k _; simp only [mescolaCiclo] at h; cases h; rfl
  | succ i ih =>
    intro t m m1 h k hk
    simp only [mescolaCiclo] at h
    split at h
    · cases h
    · next m2 hm2 =>
      have hj : rnd t % (i + 1 + 1) < i + 1 + 1 := Nat.mod_lt _ (by omega)
      rw [ih (t + 1) m2 m1 h k (by omega), scambia_fuori hm2 k (by omega) (by omega)]

theorem mescolaCiclo_succ (rnd : Nat → Nat) (i t : Nat) (m m2 : List Carta)
    (h : scambia m (i + 1) (rnd t % (i + 1 + 1)) = some m2) :
    mescolaCiclo rnd (i + 1) t m = mescolaCiclo rnd i (t + 1) m2 := by
  simp only [mescolaCiclo, h]

/-- Two random sources that lead to the same deck made the same swap choices. -/
theorem mescolaCiclo_inj (r1 r2 : Nat → Nat) :
    ∀ (i t : Nat) (m : List Carta), m.Nodup → i < m.length →
      mescolaCiclo r1 i t m = mescolaCiclo r2 i t m →
      ∀ s, s < i → r1 (t + s) % (i - s + 1) = r2 (t + s) % (i - s + 1) := by
  intro i
  induction i with
  | zero => intro t m _ _ _ s hs; omega
  | succ i ih =>
    intro t m hnd hi heq s hs
    have hj1 : r1 t % (i + 1 + 1) < m.length :=
      lt_of_lt_of_le (Nat.mod_lt _ (by omega)) (by omega)
    have hj2 : r2 t % (i + 1 + 1) < m.length :=
      lt_of_lt_of_le (Nat.mod_lt _ (by omega)) (by omega)
    obtain ⟨ma, hma⟩ := scambia_some hi hj1
    obtain ⟨mb, hmb⟩ := scambia_some hi hj2
    have hpa := scambia_perm hma
    rw [mescolaCiclo_succ r1 i t m ma hma, mescolaCiclo_succ r2 i t m mb hmb] at heq
    obtain ⟨fa, hfa, -⟩ := mescolaCiclo_perm r1 i (t + 1) ma (by rw [hpa.length_eq]; omega)
    have hfb : mescolaCiclo r2 i (t + 1) mb = some fa := by rw [← heq]; exact hfa
    have h1 := mescolaCiclo_sopra r1 i (t + 1) ma fa hfa (i + 1) (by omega)
    have h2 := mescolaCiclo_sopra r2 i (t + 1) mb fa hfb (i + 1) (by omega)
    rw [scambia_in hma] at h1
    rw [scambia_in hmb] at h2
    have hj : r1 t % (i + 1 + 1) = r2 t % (i + 1 + 1) := by
      have e1 : m[r1 t % (i + 1 + 1)]? = some (m[r1 t % (i + 1 + 1)]) :=
        List.getElem?_eq_getElem hj1
      apply nodup_getElem_inj hnd e1
      rw [← h2, h1, e1]
    have hab : ma = mb := by
      rw [hj] at hma
      rw [hma] at hmb
      exact Option.some.inj hmb
    cases s with
    | zero => simpa using hj
    | succ s =>
      rw [← hab] at heq
      have := ih (t + 1) ma (hpa.nodup_iff.mpr hnd) (by rw [hpa.length_eq]; omega) heq s
        (by omega)
      have e1 : t + (s + 1) = t + 1 + s := by omega
      have e2 : i + 1 - (s + 1) = i - s := by omega
      rw [e1, e2]
      exact this

theorem mescolaCiclo_congr (r1 r2 : Nat → Nat) :
    ∀ (i t : Nat) (m : List Carta), (∀ s, t ≤ s → r1 s = r2 s) →
      mescolaCiclo r1 i t m = mescolaCiclo r2 i t m := by
  intro i
  induction i with
  | zero => intro t m _; rfl
  | succ i ih =>
    intro t m h
    simp only [mescolaCiclo, h t (le_refl _)]
    split
    · rfl
    · exact ih (t + 1) _ (fun s hs => h s (by omega))

theorem scambia_append {a : List Carta} (suf : List Carta) {i j : Nat} (hi : i < a.length)
    (hj : j < a.length) :
    scambia (a ++ suf) i j = (scambia a i j).map (fun x => x ++ suf) := by
  unfold scambia
  rw [List.getElem?_append_left hi, List.getElem?_append_left hj,
    List.getElem?_eq_getElem hi, List.getElem?_eq_getElem hj]
  simp only [Option.map_some']
  rw [List.set_append_left _ _ hi, List.set_append_left _ _ (by simpa using hj)]

/-- Every ordering of the part of the deck that the loop still has to visit is reached by
some swap choices within their ranges. -/
theorem mescolaCiclo_sur :
    ∀ (i t : Nat) (a b suf : List Carta), a.length = i + 1 → b.Perm a →
      ∃ r : Nat → Nat, (∀ s, s < i → r (t + s) ≤ i - s) ∧
        mescolaCiclo r i t (a ++ suf) = some (b ++ suf) := by
  intro i
  induction i with
  | zero =>
    intro t a b suf ha hb
    refine ⟨fun _ => 0, fun s hs => by omega, ?_⟩
    obtain ⟨x, rfl⟩ := List.length_eq_one.mp ha
    rw [List.perm_singleton.mp hb]
    rfl
  | succ i ih =>
    intro t a b suf ha hb
    have hbl : b.length = i + 1 + 1 := by rw [hb.length_eq, ha]
    have hbne : b ≠ [] := by intro h; rw [h] at hbl; simp at hbl
    obtain ⟨y, hy⟩ : ∃ y, b.getLast? = some y := by
      cases hl : b.getLast? with
      | none => exact absurd (List.getLast?_eq_none_iff.mp hl) hbne
      | some y => exact ⟨y, rfl⟩
    have hbsplit : b.dropLast ++ [y] = b := List.dropLast_append_getLast? y hy
    have hymem : y ∈ a := hb.subset (by rw [← hbsplit]; simp)
    obtain ⟨j, hjl, hjy⟩ := List.getElem_of_mem hymem
    have hjy2 : a[j]? = some y := by rw [List.getElem?_eq_getElem hjl, hjy]
    have hi1 : i + 1 < a.length := by omega
    obtain ⟨a1, ha1⟩ := scambia_some hi1 hjl
    have hp1 := scambia_perm ha1
    have hlast : a1[i + 1]? = some y := by rw [scambia_in ha1, hjy2]
    have ha1l : a1.length = i + 1 + 1 := by rw [hp1.length_eq, ha]
    have ha1split : a1.dropLast ++ [y] = a1 := by
      apply List.dropLast_append_getLast? y
      rw [List.getLast?_eq_getElem?, ha1l]
      exact hlast
    have hperm : b.dropLast.Perm a1.dropLast := by
      have : (b.dropLast ++ [y]).Perm (a1.dropLast ++ [y]) := by
        rw [hbsplit, ha1split]
        exact hb.trans hp1.symm
      exact (List.perm_append_right_iff [y]).mp this
    obtain ⟨r, hr1, hr2⟩ := ih (t + 1) a1.dropLast b.dropLast ([y] ++ suf)
      (by rw [List.length_dropLast, ha1l]; rfl) hperm
    refine ⟨fun s => if s = t then j else r s, ?_, ?_⟩
    · intro s hs
      cases s with
      | zero => simp only [Nat.add_zero, if_true]; omega
      | succ s =>
        have hne : t + (s + 1) ≠ t := by omega
        simp only [hne, if_false]
        have := hr1 s (by omega)
        have e1 : t + (s + 1) = t + 1 + s := by omega
        rw [e1]
        omega
    · have hmod : j % (i + 1 + 1) = j := Nat.mod_eq_of_lt (by omega)
      have hsc : scambia (a ++ suf) (i + 1) ((fun s => if s = t then j else r s) t % (i + 1 + 1))
          = some (a1 ++ suf) := by
        simp only [if_true, hmod]
        rw [scambia_append suf hi1 hjl, ha1]
        rfl
      rw [mescolaCiclo_succ _ i t _ _ hsc,
        mescolaCiclo_congr _ r i (t + 1) _ (fun s hs => by
          have : s ≠ t := by omega
          simp only [this, if_false])]
      rw [← ha1split, ← hbsplit, List.append_assoc, List.append_assoc]
      exact hr2

theorem mescolaMazzo_eq (rnd : Nat → Nat) (mazzo : List Carta) (h : mazzo.length = 40) :
    mescolaMazzo rnd mazzo 40 = mescolaCiclo rnd 39 0 mazzoCanonico := by
  unfold mescolaMazzo
  rw [scriviSemi_canonico mazzo h]
  rfl

/-- C11: the shuffle as a function of the swap choices.  The value `r t` is the choice made in
iteration `t` of the swap loop, where `i = 39 - t`, so it is taken in `0..39 - t`.  Whatever
the array held before: two sequences of choices that give the same deck are equal, every
ordering of the canonical deck is given by some sequence of choices, and every sequence gives
an ordering of the canonical deck. -/
theorem mescola_biiezione (mazzo : List Carta) (h : mazzo.length = 40) :
    (∀ r1 r2 : Nat → Nat, (∀ t, t < 39 → r1 t ≤ 39 - t) → (∀ t, t < 39 → r2 t ≤ 39 - t) →
      mescolaMazzo r1 mazzo 40 = mescolaMazzo r2 mazzo 40 → ∀ t, t < 39 → r1 t = r2 t) ∧
    (∀ m : List Carta, m.Perm mazzoCanonico →
      ∃ r : Nat → Nat, (∀ t, t < 39 → r t ≤ 39 - t) ∧ mescolaMazzo r mazzo 40 = some m) ∧
    (∀ r : Nat → Nat, ∃ m, mescolaMazzo r mazzo 40 = some m ∧ m.Perm mazzoCanonico) := by
  refine ⟨?_, ?_, ?_⟩
  · intro r1 r2 h1 h2 heq t ht
    rw [mescolaMazzo_eq r1 mazzo h, mescolaMazzo_eq r2 mazzo h] at heq
    have := mescolaCiclo_inj r1 r2 39 0 mazzoCanonico mazzoCanonico_nodup (by decide) heq t ht
    rw [Nat.zero_add, Nat.mod_eq_of_lt (by have := h1 t ht; omega),
      Nat.mod_eq_of_lt (by have := h2 t ht; omega)] at this
    exact this
  · intro m hm
    obtain ⟨r, hr1, hr2⟩ := mescolaCiclo_sur 39 0 mazzoCanonico m [] (by decide) hm
    refine ⟨r, ?_, ?_⟩
    · intro t ht
      have := hr1 t ht
      rw [Nat.zero_add] at this
      exact this
    · rw [mescolaMazzo_eq r mazzo h]
      simpa using hr2
  · intro r
    obtain ⟨m, hm, hp⟩ := mescolaCiclo_perm r 39 0 mazzoCanonico (by decide)
    exact ⟨m, by rw [mescolaMazzo_eq r mazzo h]; exact hm, hp⟩

/-- Witness of C11: some choices leave the canonical deck in its order. -/
theorem mescola_biiezione_witness :
    ((List.replicate 40 (⟨0, 0⟩ : Carta)).length = 40 ∧ mazzoCanonico.Perm mazzoCanonico) ∧
    ∃ r : Nat → Nat, (∀ t, t < 39 → r t ≤ 39 - t) ∧
      mescolaMazzo r (List.replicate 40 ⟨0, 0⟩) 40 = some mazzoCanonico :=
  ⟨⟨by decide, List.Perm.refl _⟩,
   (mescola_biiezione (List.replicate 40 ⟨0, 0⟩) (by decide)).2.1 mazzoCanonico
     (List.Perm.refl _)⟩

/-! ## The frame of effect resolution -/

theorem viteFuori_refl (g : List Giocatore) (i j : Nat) : ViteFuori g g i j :=
  fun _ _ _ => rfl

theorem viteFuori_set (g : List Giocatore) (i j : Nat) (q : Giocatore) :
    ViteFuori g (g.set i q) i j := by
  intro k hi _
  rw [List.getElem?_set_ne (fun e => hi e.symm)]

theorem viteFuori_set_set (g : List Giocatore) (i j : Nat) (q r : Giocatore) :
    ViteFuori g ((g.set i q).set j r) i j := by
  intro k hi hj
  rw [List.getElem?_set_ne (fun e => hj e.symm), List.getElem?_set_ne (fun e => hi e.symm)]

theorem vite_set_stessa (g : List Giocatore) (i : Nat) (p q : Giocatore) (hp : g[i]? = some p)
    (hq : q.puntiVita = p.puntiVita) (k : Nat) :
    ((g.set i q)[k]?).map Giocatore.puntiVita = (g[k]?).map Giocatore.puntiVita := by
  by_cases hki : i = k
  · subst hki
    have hlen : i < g.length := (List.getElem?_eq_some.mp hp).1
    rw [List.getElem?_set_self hlen, hp]
    simp [hq]
  · rw [List.getElem?_set_ne hki]

/-- One iteration of the loop: an iteration that goes on (a Seven hop) changes no life
total, and any iteration changes the life totals of at most two positions. -/
theorem corpo_vite (vivi : Int) (s s1 : Stato) (hc : corpo vivi s = some s1) :
    (s1.effettoCompletato = false → ∀ k : Nat,
      (s1.giocatori[k]?).map Giocatore.puntiVita = (s.giocatori[k]?).map Giocatore.puntiVita) ∧
    ∃ i j : Nat, ViteFuori s.giocatori s1.giocatori i j := by
  unfold corpo at hc
  simp only at hc
  split at hc
  · split at hc
    · cases hc
    · cases hc
      exact ⟨fun h => by simp at h, s.attuale.toNat, s.attuale.toNat, viteFuori_set _ _ _ _⟩
  split at hc
  · split at hc
    · cases hc
    split at hc
    · cases hc
    · next q hq =>
      split at hc
      · cases hc
        have hall := vite_set_stessa s.giocatori _ q (scopre q) (leggi_getElem hq) rfl
        exact ⟨fun _ => hall, 0, 0, fun k _ _ => hall k⟩
      · cases hc
        exact ⟨fun h => by simp at h, 0, 0, viteFuori_refl _ _ _⟩
  split at hc
  · split at hc
    · cases hc
    split at hc
    · cases hc
    split at hc
    · cases hc
    · next g2 hm =>
      cases hc
      obtain ⟨q, -, rfl⟩ := modifica_some hm
      exact ⟨fun h => by simp at h, _, _, viteFuori_set_set _ _ _ _ _⟩
  split at hc
  · split at hc
    · cases hc
      exact ⟨fun h => by simp at h, 0, 0, viteFuori_refl _ _ _⟩
    split at hc
    · cases hc
    split at hc
    · cases hc
    split at hc
    · cases hc
    · next g2 hm =>
      cases hc
      obtain ⟨q, -, rfl⟩ := modifica_some hm
      exact ⟨fun h => by simp at h, _, _, viteFuori_set_set _ _ _ _ _⟩
  split at hc
  · split at hc
    · cases hc
    · split at hc
      · cases hc
        exact ⟨fun h => by simp at h, s.attuale.toNat, s.attuale.toNat, viteFuori_set _ _ _ _⟩
      · cases hc
        exact ⟨fun h => by simp at h, 0, 0, viteFuori_refl _ _ _⟩
  · cases hc
    exact ⟨fun h => by simp at h, 0, 0, viteFuori_refl _ _ _⟩

theorem ciclo_vite (vivi : Int) :
    ∀ (fuel : Nat) (s r : Stato), ciclo vivi fuel s = Esito.ok r →
      ∃ i j : Nat, ViteFuori s.giocatori r.giocatori i j := by
  intro fuel
  induction fuel with
  | zero =>
    intro s r h
    cases hs : s.effettoCompletato with
    | true =>
      rw [ciclo_completato _ _ _ hs] at h; cases h
      exact ⟨0, 0, viteFuori_refl _ _ _⟩
    | false => simp [ciclo, hs] at h
  | succ fuel ih =>
    intro s r h
    cases hs : s.effettoCompletato with
    | true =>
      rw [ciclo_completato _ _ _ hs] at h; cases h
      exact ⟨0, 0, viteFuori_refl _ _ _⟩
    | false =>
      cases hc : corpo vivi s with
      | none => simp [ciclo, hs, hc] at h
      | some s1 =>
        rw [ciclo_succ _ _ _ _ hs hc] at h
        obtain ⟨hsalto, hij⟩ := corpo_vite vivi s s1 hc
        cases hs1 : s1.effettoCompletato with
        | true =>
          rw [ciclo_completato _ _ _ hs1] at h; cases h
          exact hij
        | false =>
          obtain ⟨i, j, hr⟩ := ih s1 r h
          exact ⟨i, j, fun k hi hj => by rw [hr k hi hj, hsalto hs1 k]⟩

/-- C21: whatever `applicaEffetto` returns, for any roster, pool, acting index, card and
active count: the array keeps its length; every record keeps its id, its name and its two
cards; a second card that was revealed is still revealed; and there are two positions
outside of which every life total is what it was.  For a roster of `n ≥ 2` players whose
ids equal their positions and an acting index among them the call does return. -/
theorem applicaEffetto_cornice_vite (fuel : Nat) (c : Carta) (g : List Giocatore)
    (a d vivi : Int) :
    (∀ g1 d1, applicaEffetto fuel c g a d vivi = Esito.ok (g1, d1) →
      g1.length = g.length ∧
      (∀ (k : Nat) (p p1 : Giocatore), g[k]? = some p → g1[k]? = some p1 →
        p1.id = p.id ∧ p1.nome = p.nome ∧ p1.mano.carta1 = p.mano.carta1 ∧
        p1.mano.carta2 = p.mano.carta2 ∧
        (p.mano.scoperta2 = true → p1.mano.scoperta2 = true)) ∧
      ∃ i j : Nat, ∀ k : Nat, k ≠ i → k ≠ j →
        (g1[k]?).map Giocatore.puntiVita = (g[k]?).map Giocatore.puntiVita) ∧
    (∀ n k : Nat, vivi = (n : Int) → a = (k : Int) → 2 ≤ n → idPosizioni g n → k < n →
      n + 1 ≤ fuel → ∃ g1 d1, applicaEffetto fuel c g a d vivi = Esito.ok (g1, d1)) := by
  constructor
  · intro g1 d1 h
    have hcor := applicaEffetto_cornice h
    obtain ⟨s, hs, hr⟩ := applicaEffetto_ok h
    cases hr
    exact ⟨hcor.1, hcor.2, ciclo_vite vivi fuel _ s hs⟩
  · intro n k hvivi hak hn hid hk hf
    subst hvivi hak
    obtain ⟨r, hr⟩ := applicaEffetto_termina hn fuel c g k d hid hk hf
    exact ⟨r.1, r.2, hr⟩

/-- Witness of C21: a Jack played by player 0 of four changes the life of players 0 and 3 and
nothing else. -/
theorem applicaEffetto_cornice_vite_witness :
    applicaEffetto 1 ⟨0, 17⟩ esempioQuattro 0 0 4
      = Esito.ok ([gioc 0 4 11 12 false, gioc 1 5 12 13 false, gioc 2 5 18 14 false,
          gioc 3 6 13 15 false], 0) ∧
    ∃ i j : Nat, ∀ k : Nat, k ≠ i → k ≠ j →
      (([gioc 0 4 11 12 false, gioc 1 5 12 13 false, gioc 2 5 18 14 false,
          gioc 3 6 13 15 false] : List Giocatore)[k]?).map Giocatore.puntiVita
        = (esempioQuattro[k]?).map Giocatore.puntiVita :=
  ⟨by decide,
   ((applicaEffetto_cornice_vite 1 ⟨0, 17⟩ esempioQuattro 0 0 4).1 _ 0 (by decide)).2.2⟩

end KingCartes
